import Mathlib

/-!
Verification development for the decision-companion core engine
(`src/api/index.py`).  The Python source is shallowly embedded:

* Python floats are modelled as real numbers (`ℝ`); the weight
  calculator and the confidence post-processing, which only ever use
  exact decimal/rational arithmetic, are modelled over `ℚ` so that they
  stay executable.
* `random.gauss` calls are modelled by an injected stream `g : ℕ → ℝ` of
  sampled values, consumed sequentially exactly where the source calls
  the generator.
* Code that can raise an uncaught Python exception (`max`/`min` of an
  empty sequence, `list[0]`, missing dict key, `next` on an empty
  iterator) is embedded in the `Option` monad, `none` marking the crash.
-/

namespace DecCompanion

/-! ### Shared small helpers -/

/-- Python `max(1, min(9, x))` (source line 126 and line 32). -/
noncomputable def clamp19 (x : ℝ) : ℝ := max 1 (min 9 x)

/-- Python `round(x)` on a real value: round half to even (banker's
rounding), returning an integer. -/
noncomputable def pyRound (x : ℝ) : ℤ :=
  if x - ⌊x⌋ < 1/2 then ⌊x⌋
  else if 1/2 < x - ⌊x⌋ then ⌊x⌋ + 1
  else if Even ⌊x⌋ then ⌊x⌋ else ⌊x⌋ + 1

/-- Python `round(q)` on an exact rational, half to even. -/
def pyRoundQ (q : ℚ) : ℤ :=
  if q - ⌊q⌋ < 1/2 then ⌊q⌋
  else if 1/2 < q - ⌊q⌋ then ⌊q⌋ + 1
  else if Even ⌊q⌋ then ⌊q⌋ else ⌊q⌋ + 1

/-- Python `round(q, 1)`: round to one decimal place. -/
def round1 (q : ℚ) : ℚ := (pyRoundQ (10 * q) : ℚ) / 10

/-- Insert `x` into an already descending-sorted list, after every
element whose key is `≥` the key of `x`.  This reproduces the behaviour
of Python's stable `sorted(..., key=key, reverse=True)` when elements
are fed in their original order. -/
def insertDesc {α β : Type} [LinearOrder β] (key : α → β) (x : α) : List α → List α
  | [] => [x]
  | y :: ys => if key y < key x then x :: y :: ys else y :: insertDesc key x ys

/-- Python `sorted(l, key=key, reverse=True)` (stable descending sort). -/
def sortDesc {α β : Type} [LinearOrder β] (key : α → β) (l : List α) : List α :=
  l.foldl (fun acc x => insertDesc key x acc) []

/-! ### WeightCalculator (source lines 35-71), over `ℚ` -/

/-- Source `calculate_roc_weights(n)` (lines 35-41): standard
rank-order-centroid weights, `weights[i] = (sum of 1/j for j = i+1 .. n) / n`
for the 0-based index `i`. -/
def calculate_roc_weights (n : ℕ) : List ℚ :=
  (List.range' 1 n).map fun i =>
    ((List.range' i (n + 1 - i)).map fun j : ℕ => (1 : ℚ) / (j : ℚ)).sum / n

/-- Python `sorted(set(priorities))`: ascending list of distinct values. -/
def sortedUnique (priorities : List ℤ) : List ℤ :=
  priorities.dedup.mergeSort (fun a b => a ≤ b)

/-- The slot-assignment loop of `calculate_roc_weights_with_ties`
(source lines 58-64): walking the distinct priorities in ascending
order, each one claims a contiguous block of base-weight positions of
size `count`; returns the association list `priority ↦ slots` together
with the final cursor. -/
def prioritySlots (priorities : List ℤ) : List (ℤ × List ℕ) × ℕ :=
  (sortedUnique priorities).foldl
    (fun (acc : List (ℤ × List ℕ) × ℕ) p =>
      let count := priorities.count p
      (acc.1 ++ [(p, List.range' acc.2 count)], acc.2 + count))
    ([], 0)

/-- Source `calculate_roc_weights_with_ties(priorities)` (lines 43-71):
tied criteria share the mean of the base ROC weights over their block of
positions. -/
def calculate_roc_weights_with_ties (priorities : List ℤ) : List ℚ :=
  let n := priorities.length
  let base := calculate_roc_weights n
  let slots := (prioritySlots priorities).1
  let weightOf : ℤ → ℚ := fun p =>
    match slots.lookup p with
    | some sl => (sl.map fun s => base.getD s 0).sum / sl.length
    | none => 0
  priorities.map weightOf

/-! ### DecisionEngine label maps (source lines 18-33) -/

/-- Source `qualitative_map` (lines 19-22). -/
def qualitative_map : List (String × ℚ) :=
  [("very low", 1), ("low", 3), ("medium", 5), ("high", 7), ("very high", 9)]

/-- Source `value_label_map` (lines 23-29). -/
def value_label_map : List (ℤ × String) :=
  [(1, "very low"), (2, "very low"),
   (3, "low"), (4, "low"),
   (5, "medium"), (6, "medium"),
   (7, "high"), (8, "high"),
   (9, "very high")]

/-- Source `value_to_label` (lines 31-33): round, clamp into `[1, 9]`,
then look the integer up in `value_label_map`, defaulting to
`"medium"`. -/
noncomputable def value_to_label (value : ℝ) : String :=
  let rounded : ℤ := max 1 (min 9 (pyRound value))
  (value_label_map.lookup rounded).getD "medium"

/-! ### Data model for the scorer

`analyze` (source lines 197-219) builds each criterion as a dict with
keys `id`/`name`/`type`/`dynamic`/`priority`/`tied`/`weight` and each
option as a dict `name`/`values`, where `values` maps the criterion id
`"c{i}"` to a float.  Ids are modelled as the natural number `i`, and a
values dict as a total function `ℕ → ℝ` (every access in the engine is
to an id the dict holds, since `analyze` builds options and criteria
over the same index range). -/

/-- Criterion type: `"benefit"` or `"cost"`. -/
inductive CritType : Type
  | benefit : CritType
  | cost : CritType
deriving DecidableEq

structure Criterion : Type where
  id : ℕ
  name : String
  ctype : CritType
  dynamic : Bool
  priority : ℤ
  tied : Bool
  weight : ℝ

structure Opt : Type where
  name : String
  values : ℕ → ℝ

/-- One entry of the ranked result list of `run_topsis`. -/
structure ScoreEntry : Type where
  name : String
  score : ℝ

/-! ### Scorer / TOPSIS (source lines 79-116) -/

/-- The column denominator of the first `run_topsis` loop (lines 83-84):
Euclidean norm of the criterion's raw column, or `1` when the column is
all zeros. -/
noncomputable def den (options : List Opt) (c : Criterion) : ℝ :=
  let sq := (options.map fun o => o.values c.id ^ 2).sum
  if sq > 0 then Real.sqrt sq else 1

/-- Entry of the weighted-normalized matrix `norm[o][c]` (line 87). -/
noncomputable def normVal (options : List Opt) (c : Criterion) (o : Opt) : ℝ :=
  o.values c.id / den options c * c.weight

/-- The normalized column of one criterion, in option order (line 93). -/
noncomputable def normColumn (options : List Opt) (c : Criterion) : List ℝ :=
  options.map (normVal options c)

/-- `best[cid]` (lines 94-99): column max for a benefit criterion,
column min for a cost criterion.  `none` models the `ValueError` that
Python's `max`/`min` raise on an empty option list. -/
noncomputable def colBest (options : List Opt) (c : Criterion) : Option ℝ :=
  match c.ctype with
  | .benefit => (normColumn options c).max?
  | .cost => (normColumn options c).min?

/-- `worst[cid]` (lines 94-99), dual to `colBest`. -/
noncomputable def colWorst (options : List Opt) (c : Criterion) : Option ℝ :=
  match c.ctype with
  | .benefit => (normColumn options c).min?
  | .cost => (normColumn options c).max?

/-- `d1` of option `o` (lines 104-106): Euclidean distance from the
option's normalized row to the ideal-best vector. -/
noncomputable def dBest (options : List Opt) (criteria : List Criterion) (o : Opt) :
    Option ℝ :=
  (criteria.mapM fun c => (colBest options c).map fun b =>
      (normVal options c o - b) ^ 2).map
    fun l => Real.sqrt l.sum

/-- `d2` of option `o` (lines 107-109): distance to the ideal-worst
vector. -/
noncomputable def dWorst (options : List Opt) (criteria : List Criterion) (o : Opt) :
    Option ℝ :=
  (criteria.mapM fun c => (colWorst options c).map fun w =>
      (normVal options c o - w) ^ 2).map
    fun l => Real.sqrt l.sum

/-- `score` of option `o` (line 110): `d2 / (d1 + d2)`, defaulting to
`0.5` when `d1 + d2` is not positive. -/
noncomputable def scoreOf (options : List Opt) (criteria : List Criterion) (o : Opt) :
    Option ℝ := do
  let d1 ← dBest options criteria o
  let d2 ← dWorst options criteria o
  pure (if d1 + d2 > 0 then d2 / (d1 + d2) else 0.5)

/-- Source `run_topsis` (lines 79-116).  Returns the result list sorted
descending by score (stable, line 114) together with the ideal-best and
ideal-worst dicts; `none` models an uncaught `ValueError` from
`max`/`min` over an empty column. -/
noncomputable def run_topsis (options : List Opt) (criteria : List Criterion) :
    Option (List ScoreEntry × List (ℕ × ℝ) × List (ℕ × ℝ)) := do
  let bests ← criteria.mapM fun c => (colBest options c).map fun b => (c.id, b)
  let worsts ← criteria.mapM fun c => (colWorst options c).map fun w => (c.id, w)
  let results ← options.mapM fun o =>
    (scoreOf options criteria o).map fun s => ScoreEntry.mk o.name s
  pure (sortDesc ScoreEntry.score results, bests, worsts)

/-! Proof-side total value functions for the scorer: on a non-empty
option list they are the values inside the `Option`s above. -/

/-- The ideal-best normalized value of a criterion (junk `0` when the
option list is empty and the source would have raised). -/
noncomputable def bestVal (options : List Opt) (c : Criterion) : ℝ :=
  (colBest options c).getD 0

/-- The ideal-worst normalized value of a criterion. -/
noncomputable def worstVal (options : List Opt) (c : Criterion) : ℝ :=
  (colWorst options c).getD 0

/-- Distance of an option to the ideal-best vector, as a plain real. -/
noncomputable def dBestVal (options : List Opt) (criteria : List Criterion)
    (o : Opt) : ℝ :=
  Real.sqrt ((criteria.map fun c => (normVal options c o - bestVal options c) ^ 2).sum)

/-- Distance of an option to the ideal-worst vector, as a plain real. -/
noncomputable def dWorstVal (options : List Opt) (criteria : List Criterion)
    (o : Opt) : ℝ :=
  Real.sqrt ((criteria.map fun c => (normVal options c o - worstVal options c) ^ 2).sum)

/-- The TOPSIS score of an option, as a plain real. -/
noncomputable def scoreVal (options : List Opt) (criteria : List Criterion)
    (o : Opt) : ℝ :=
  if dBestVal options criteria o + dWorstVal options criteria o > 0 then
    dWorstVal options criteria o /
      (dBestVal options criteria o + dWorstVal options criteria o)
  else 0.5

/-- One option with its raw value on criterion id `cid` multiplied by
`k` (the rescaling of the scale-invariance claim). -/
noncomputable def scaleOpt (k : ℝ) (cid : ℕ) (o : Opt) : Opt :=
  Opt.mk o.name fun c => if c = cid then k * o.values c else o.values c

/-- Multiply every option's raw value on criterion id `cid` by `k`. -/
noncomputable def scaleCrit (k : ℝ) (cid : ℕ) (options : List Opt) : List Opt :=
  options.map (scaleOpt k cid)

/-! Concrete example inputs used to witness the scorer theorems: two
options scored `0` and `1` on a single benefit criterion of weight 1. -/

def exOptA : Opt := Opt.mk "A" fun _ => 0

def exOptB : Opt := Opt.mk "B" fun _ => 1

def exCrit0 : Criterion := Criterion.mk 0 "Q" CritType.benefit false 1 false 1

def exOptions : List Opt := [exOptA, exOptB]

def exCriteria : List Criterion := [exCrit0]

/-! ### Simulator (source lines 118-134)

`random.gauss(0, 1)` calls are modelled by the injected stream
`g : ℕ → ℝ`; `pos` is the index of the next unconsumed sample.  The
source consumes one sample per (option, dynamic criterion) pair, option
loop outside, criterion loop inside. -/

/-- The inner criterion loop of one option (source lines 124-126): the
working dict starts as `o['values'].copy()`, and each dynamic criterion
overwrites its own key with the clamped perturbed value. -/
noncomputable def perturbVals (g : ℕ → ℝ) :
    List Criterion → (ℕ → ℝ) → ℕ → ((ℕ → ℝ) × ℕ)
  | [], vals, pos => (vals, pos)
  | c :: cs, vals, pos =>
    if c.dynamic then
      perturbVals g cs
        (fun k => if k = c.id then clamp19 (vals c.id + g pos) else vals k)
        (pos + 1)
    else perturbVals g cs vals pos

/-- The option loop of one simulation iteration (source lines 121-127):
build the perturbed snapshot `sim`. -/
noncomputable def buildSim (g : ℕ → ℝ) (criteria : List Criterion) :
    List Opt → ℕ → (List Opt × ℕ)
  | [], pos => ([], pos)
  | o :: os, pos =>
    let v := perturbVals g criteria o.values pos
    let rest := buildSim g criteria os v.2
    (Opt.mk o.name v.1 :: rest.1, rest.2)

/-- `counts = {o['name']: 0 for o in options}` (line 119): a duplicate
name re-assigns the same key, so the first position wins. -/
def initCounts (options : List Opt) : List (String × ℕ) :=
  options.foldl
    (fun acc o => if (acc.lookup o.name).isSome then acc else acc ++ [(o.name, 0)])
    []

/-- `counts[name] += 1` (line 129); `none` models the `KeyError` on a
missing key. -/
def bump (counts : List (String × ℕ)) (n : String) : Option (List (String × ℕ)) :=
  match counts with
  | [] => none
  | (k, v) :: rest =>
    if k = n then some ((k, v + 1) :: rest)
    else (bump rest n).map fun r => (k, v) :: r

/-- The 300-iteration loop of `simulate` (lines 120-129), counted down
by the first argument. -/
noncomputable def simLoop (options : List Opt) (criteria : List Criterion)
    (g : ℕ → ℝ) : ℕ → ℕ → List (String × ℕ) → Option (List (String × ℕ) × ℕ)
  | 0, pos, counts => some (counts, pos)
  | m + 1, pos, counts => do
    let sim := buildSim g criteria options pos
    let res ← run_topsis sim.1 criteria
    let top ← res.1.head?
    let counts' ← bump counts top.name
    simLoop options criteria g m sim.2 counts'

/-- One entry of the simulation outcome.  The confidence
`round(c / 3, 1)` (line 132) is exact decimal arithmetic, modelled over
`ℚ`. -/
structure SimResult : Type where
  name : String
  confidence : ℚ

/-- Source `simulate` (lines 118-134): 300 perturb-and-rescore
iterations, then confidence percentages sorted descending.  `none`
models an uncaught exception (empty option list makes `max`, or
`res[0]`, raise). -/
noncomputable def simulate (options : List Opt) (criteria : List Criterion)
    (g : ℕ → ℝ) : Option (List SimResult) := do
  let r ← simLoop options criteria g 300 0 (initCounts options)
  pure (sortDesc SimResult.confidence
    (r.1.map fun nc => SimResult.mk nc.1 (round1 (nc.2 / 3))))

/-! ### Spec-modelled perturbation (for the shared-shock claim)

The spec describes a different per-iteration structure than the source:
first one shared "future shock" per dynamic criterion, applied to all
options of that criterion simultaneously, then an additional independent
noise term per option.  The following definitions are modelled from the
spec's words, to be compared with `buildSim` above. -/

/-- Modelled from the spec: draw one shared shock per dynamic criterion,
in criterion order, consuming one sample each. -/
noncomputable def sharedShocks (g : ℕ → ℝ) :
    List Criterion → ℕ → (List (ℕ × ℝ) × ℕ)
  | [], pos => ([], pos)
  | c :: cs, pos =>
    if c.dynamic then
      let rest := sharedShocks g cs (pos + 1)
      ((c.id, g pos) :: rest.1, rest.2)
    else sharedShocks g cs pos

/-- Modelled from the spec: perturb one option's values by the shared
shock of each dynamic criterion plus an individual noise sample. -/
noncomputable def perturbValsSpec (g : ℕ → ℝ) (shocks : List (ℕ × ℝ)) :
    List Criterion → (ℕ → ℝ) → ℕ → ((ℕ → ℝ) × ℕ)
  | [], vals, pos => (vals, pos)
  | c :: cs, vals, pos =>
    if c.dynamic then
      perturbValsSpec g shocks cs
        (fun k => if k = c.id then
            clamp19 (vals c.id + ((shocks.lookup c.id).getD 0 + g pos))
          else vals k)
        (pos + 1)
    else perturbValsSpec g shocks cs vals pos

/-- Modelled from the spec: the option loop on top of
`perturbValsSpec`. -/
noncomputable def buildSimSpecOptions (g : ℕ → ℝ) (criteria : List Criterion)
    (shocks : List (ℕ × ℝ)) : List Opt → ℕ → (List Opt × ℕ)
  | [], pos => ([], pos)
  | o :: os, pos =>
    let v := perturbValsSpec g shocks criteria o.values pos
    let rest := buildSimSpecOptions g criteria shocks os v.2
    (Opt.mk o.name v.1 :: rest.1, rest.2)

/-- Modelled from the spec (section 4.4): one simulation iteration's
perturbed snapshot, with the shared-then-individual structure. -/
noncomputable def buildSimSpec (g : ℕ → ℝ) (criteria : List Criterion)
    (options : List Opt) (pos : ℕ) : List Opt × ℕ :=
  let s := sharedShocks g criteria pos
  buildSimSpecOptions g criteria s.1 options s.2

/-! ### Explainer (source lines 136-172 and 237-268) -/

/-- Python `round(x, 1)` on a real value. -/
noncomputable def round1R (x : ℝ) : ℝ := (pyRound (10 * x) : ℝ) / 10

/-- Python `round(x, 2)` on a real value. -/
noncomputable def round2R (x : ℝ) : ℝ := (pyRound (100 * x) : ℝ) / 100

/-- One explanation entry (source lines 162-168). -/
structure ExplEntry : Type where
  id : ℕ
  name : String
  actual : ℝ
  gap_pct : ℝ
  weight : ℝ

/-- Insert `x` into an ascending-sorted list after every element whose
key is `≤` the key of `x`: Python's stable `l.sort(key=key)`. -/
def insertAsc {α β : Type} [LinearOrder β] (key : α → β) (x : α) : List α → List α
  | [] => [x]
  | y :: ys => if key x < key y then x :: y :: ys else y :: insertAsc key x ys

/-- Python `l.sort(key=key)` (stable ascending sort). -/
def sortAsc {α β : Type} [LinearOrder β] (key : α → β) (l : List α) : List α :=
  l.foldl (fun acc x => insertAsc key x acc) []

/-- `ideal_raw[cid]` (lines 139-149): raw column max for a benefit
criterion, min for cost; `none` models `max`/`min` on no options. -/
noncomputable def idealRaw (options : List Opt) (c : Criterion) : Option ℝ :=
  match c.ctype with
  | .benefit => (options.map fun o => o.values c.id).max?
  | .cost => (options.map fun o => o.values c.id).min?

/-- `worst_raw[cid]` (lines 139-149), dual of `idealRaw`. -/
noncomputable def worstRaw (options : List Opt) (c : Criterion) : Option ℝ :=
  match c.ctype with
  | .benefit => (options.map fun o => o.values c.id).min?
  | .cost => (options.map fun o => o.values c.id).max?

/-- The entry list of one option (lines 154-168): percentage gap from
the raw ideal, `0.0` on a zero-range column, rounded to one decimal. -/
noncomputable def explEntries (options : List Opt) (criteria : List Criterion)
    (o : Opt) : Option (List ExplEntry) :=
  criteria.mapM fun c => do
    let ideal ← idealRaw options c
    let worstv ← worstRaw options c
    let actual := o.values c.id
    let rawRange := |ideal - worstv|
    let gap := if rawRange > 0 then |actual - ideal| / rawRange * 100 else 0
    pure (ExplEntry.mk c.id c.name actual (round1R gap) c.weight)

/-- Source `explain_all` (lines 136-172): per-option entry lists sorted
ascending by gap, keyed by option name, plus the ranked results. -/
noncomputable def explain_all (options : List Opt) (criteria : List Criterion) :
    Option (List (String × List ExplEntry) × List ScoreEntry) := do
  let res ← run_topsis options criteria
  let expls ← options.mapM fun o =>
    (explEntries options criteria o).map fun l => (o.name, sortAsc ExplEntry.gap_pct l)
  pure (expls, res.1)

/-- The `next(x['gap_pct'] for x in all_explanations[n] if x['id'] == cid)`
lookup (lines 255-258); `none` models `KeyError` / `StopIteration`. -/
noncomputable def gapFor (allExpl : List (String × List ExplEntry)) (cid : ℕ)
    (n : String) : Option ℝ :=
  (allExpl.lookup n).bind fun l =>
    (l.find? fun x => x.id == cid).map ExplEntry.gap_pct

/-- The `differentiating` comprehension (lines 251-261): keep the
entries on which the winner's gap is strictly below every other
option's gap for the same criterion. -/
noncomputable def filterDominant (allExpl : List (String × List ExplEntry))
    (others : List String) : List ExplEntry → Option (List ExplEntry)
  | [] => some []
  | e :: es => do
    let gs ← others.mapM (gapFor allExpl e.id)
    let rest ← filterDominant allExpl others es
    pure (if gs.all fun og => decide (e.gap_pct < og) then e :: rest else rest)

/-- Python `max(l, key=lambda e: e['weight'])` (line 265): first element
of maximal weight; `none` on an empty list. -/
noncomputable def maxByWeight : List ExplEntry → Option ExplEntry
  | [] => none
  | e :: es => some (es.foldl (fun b x => if x.weight > b.weight then x else b) e)

/-- Python `min(l, key=lambda e: (e['gap_pct'], -e['weight']))`
(line 268): first element that is lexicographically minimal; `none` on
an empty list. -/
noncomputable def minByGapWeight : List ExplEntry → Option ExplEntry
  | [] => none
  | e :: es => some (es.foldl
      (fun b x =>
        if x.gap_pct < b.gap_pct ∨ (x.gap_pct = b.gap_pct ∧ -x.weight < -b.weight)
        then x else b) e)

/-- Source `find_differentiating_crit` (lines 237-268). -/
noncomputable def find_differentiating_crit (winner_name : String)
    (winner_expl : List ExplEntry) (allExpl : List (String × List ExplEntry))
    (original_options : List Opt) : Option ExplEntry := do
  let others := (original_options.filter fun o => o.name != winner_name).map Opt.name
  let differentiating ← filterDominant allExpl others winner_expl
  if differentiating.isEmpty then minByGapWeight winner_expl
  else maxByWeight differentiating

/-! ### Value coercion and the `analyze` boundary (source 73-77, 180-317) -/

/-- A JSON input value for one option/criterion cell: a number or a
string. -/
inductive InputValue : Type
  | num : ℚ → InputValue
  | str : String → InputValue

/-- Numeric value of a digit string. -/
def digitsVal (cs : List Char) : ℕ :=
  cs.foldl (fun n c => 10 * n + (c.toNat - 48)) 0

/-- Python `float(s)` on a string, for the plain decimal forms
(optional sign, digits, optional fraction part); exotic forms such as
exponents or `inf` are outside what any claim exercises and parse as
failures here. -/
def parsePyFloat (s : String) : Option ℚ :=
  let t := s.trim
  let sgn : ℚ := if t.startsWith "-" then -1 else 1
  let body := if t.startsWith "-" ∨ t.startsWith "+" then t.drop 1 else t
  match body.splitOn "." with
  | [ip] =>
    if ip ≠ "" ∧ ip.data.all Char.isDigit = true then
      some (sgn * digitsVal ip.data)
    else none
  | [ip, fp] =>
    if (ip ≠ "" ∨ fp ≠ "") ∧ ip.data.all Char.isDigit = true ∧
        fp.data.all Char.isDigit = true then
      some (sgn * ((digitsVal ip.data : ℚ) + (digitsVal fp.data : ℚ) / (10 : ℚ) ^ fp.length))
    else none
  | _ => none

/-- Source `_to_float` (lines 73-77): try `float(v)`, else look the
lowered/stripped string up in `qualitative_map`, defaulting to `5`. -/
noncomputable def to_float (v : InputValue) : ℝ :=
  match v with
  | .num q => (q : ℝ)
  | .str s =>
    match parsePyFloat s with
    | some q => (q : ℝ)
    | none => ((qualitative_map.lookup s.toLower.trim).getD 5 : ℝ)

/-- One entry of the request's `criteria` list (section 6 of the spec);
`priority` is optional (`c.get('priority', i + 1)`). -/
structure CriterionData : Type where
  name : String
  ctype : CritType
  dynamic : Bool
  priority : Option ℤ

/-- One entry of the request's `options` list. -/
structure OptionData : Type where
  name : String
  values : List InputValue

/-- The request body.  A `none` field models a missing JSON key, whose
access `data[...]` raises `KeyError`. -/
structure AnalyzeInput : Type where
  goal : Option String
  criteria : Option (List CriterionData)
  options : Option (List OptionData)

/-- Echo of one criterion in the response (lines 303-313). -/
structure CritEcho : Type where
  name : String
  ctype : CritType
  dynamic : Bool
  priority : ℤ
  tied : Bool
  weight : ℝ

/-- The winner-reasoning payload (line 275).  The sentence string itself
is presentation; what it carries is the winner's name, the chosen
criterion's name and the raw input value, which is what is modelled. -/
structure Reasoning : Type where
  winner : String
  critName : String
  rawVal : InputValue

/-- One entry of `option_breakdown` (lines 292-299); the
`selection_note` sentence is modelled by the criterion name / raw value
it interpolates. -/
structure BreakdownEntry : Type where
  name : String
  rank : ℕ
  confidence : ℚ
  noteCrit : String
  noteRaw : InputValue
  strengths : List String
  weaknesses : List String

/-- The response body (lines 301-317). -/
structure AnalyzeOutput : Type where
  goal : String
  criteria : List CritEcho
  simulation_results : List SimResult
  reasoning : Reasoning
  option_breakdown : List BreakdownEntry

/-- Source `analyze` (lines 180-317), the request boundary.  There is no
validation and no `try`/`except` in the source; every uncaught Python
exception on the way is `none` here.  `copy.deepcopy(options)`
(line 221) is the identity on the pure snapshot values. -/
noncomputable def analyze (data : AnalyzeInput) (g : ℕ → ℝ) :
    Option AnalyzeOutput := do
  let goal ← data.goal
  let criteria_data ← data.criteria
  let options_data ← data.options
  let priorities := criteria_data.enum.map fun ic => (ic.2.priority.getD (ic.1 + 1))
  let weights := calculate_roc_weights_with_ties priorities
  let criteria := criteria_data.enum.map fun ic =>
    Criterion.mk ic.1 ic.2.name ic.2.ctype ic.2.dynamic (priorities.getD ic.1 0)
      (priorities.count (priorities.getD ic.1 0) > 1)
      ((weights.getD ic.1 0 : ℚ) : ℝ)
  let options := options_data.map fun o =>
    Opt.mk o.name fun k => to_float (o.values.getD k (InputValue.num 0))
  let rawValues : String → ℕ → InputValue := fun n k =>
    match options_data.find? fun o => o.name == n with
    | some o => o.values.getD k (InputValue.num 0)
    | none => InputValue.num 0
  let original_options := options
  let sim ← simulate options criteria g
  let expl ← explain_all original_options criteria
  let allExpl := expl.1
  let top ← sim.head?
  let winner := top.name
  let winner_expl ← allExpl.lookup winner
  let best_crit ← find_differentiating_crit winner winner_expl allExpl original_options
  let reasoning := Reasoning.mk winner best_crit.name (rawValues winner best_crit.id)
  let breakdown ← original_options.mapM fun o => do
    let e ← allExpl.lookup o.name
    let confidence ← (sim.find? fun r => r.name == o.name).map SimResult.confidence
    let rank ← (sim.findIdx? fun r => r.name == o.name).map (· + 1)
    let opt_best ← find_differentiating_crit o.name e allExpl original_options
    pure (BreakdownEntry.mk o.name rank confidence opt_best.name
      (rawValues o.name opt_best.id)
      ((e.filter fun x => decide (x.gap_pct ≤ 40)).map ExplEntry.name)
      ((e.filter fun x => decide (x.gap_pct > 40)).map ExplEntry.name))
  pure (AnalyzeOutput.mk goal
    (criteria.map fun c =>
      CritEcho.mk c.name c.ctype c.dynamic c.priority c.tied (round2R (c.weight * 100)))
    sim reasoning breakdown)

/-! ### Store-instrumented model of the simulation loop

The pure model above cannot even express whether `simulate` mutates the
caller's option dicts, because Lean values are immutable.  To settle the
frame claim, values dicts are modelled as entries of an explicit store;
references into the store play the role of Python object identity:
`o['values']` is a reference, `o['values'].copy()` (line 123) allocates
a fresh entry, and the item assignment of line 126 writes through the
reference. -/

/-- A store of values dicts; a reference is an index into it. -/
abbrev Store : Type := List (ℕ → ℝ)

/-- An option whose values dict lives in the store. -/
structure OptRef : Type where
  name : String
  ref : ℕ

/-- Contents at a (valid) reference. -/
def readDict (st : Store) (r : ℕ) : ℕ → ℝ := st.getD r fun _ => 0

/-- `o['values'].copy()` (line 123): allocate a fresh entry with the
same contents, returning the new store and the fresh reference. -/
def copyDict (st : Store) (r : ℕ) : Store × ℕ := (st ++ [readDict st r], st.length)

/-- `vals[cid] = x` (line 126): write one key through a reference. -/
def writeVal (st : Store) (r : ℕ) (cid : ℕ) (x : ℝ) : Store :=
  st.set r fun k => if k = cid then x else readDict st r k

/-- The criterion loop (lines 124-126) acting on the dict at `r`. -/
noncomputable def perturbStore (g : ℕ → ℝ) (r : ℕ) :
    List Criterion → Store → ℕ → (Store × ℕ)
  | [], st, pos => (st, pos)
  | c :: cs, st, pos =>
    if c.dynamic then
      perturbStore g r cs
        (writeVal st r c.id (clamp19 (readDict st r c.id + g pos))) (pos + 1)
    else perturbStore g r cs st pos

/-- The option loop (lines 121-127) on the store: copy each option's
dict, perturb the copy in place, and collect references to the copies
in the `sim` snapshot. -/
noncomputable def buildSimStore (g : ℕ → ℝ) (criteria : List Criterion) :
    List OptRef → Store → ℕ → (List OptRef × Store × ℕ)
  | [], st, pos => ([], st, pos)
  | o :: os, st, pos =>
    let cp := copyDict st o.ref
    let pt := perturbStore g cp.2 criteria cp.1 pos
    let rest := buildSimStore g criteria os pt.1 pt.2
    (OptRef.mk o.name cp.2 :: rest.1, rest.2)

/-- Read a snapshot of store-backed options into plain options, for the
read-only `run_topsis` call of line 128. -/
def materialize (st : Store) (l : List OptRef) : List Opt :=
  l.map fun o => Opt.mk o.name (readDict st o.ref)

/-- `counts = {o['name']: 0 for o in options}` for store-backed
options. -/
def initCountsRef (options : List OptRef) : List (String × ℕ) :=
  options.foldl
    (fun acc o => if (acc.lookup o.name).isSome then acc else acc ++ [(o.name, 0)])
    []

/-- The 300-iteration loop of `simulate` on the store. -/
noncomputable def simLoopStore (options : List OptRef) (criteria : List Criterion)
    (g : ℕ → ℝ) :
    ℕ → Store → ℕ → List (String × ℕ) → Option (List (String × ℕ) × Store × ℕ)
  | 0, st, pos, counts => some (counts, st, pos)
  | m + 1, st, pos, counts => do
    let b := buildSimStore g criteria options st pos
    let res ← run_topsis (materialize b.2.1 b.1) criteria
    let top ← res.1.head?
    let counts' ← bump counts top.name
    simLoopStore options criteria g m b.2.1 b.2.2 counts'

/-- Source `simulate` (lines 118-134) on the store: returns the ranked
confidences together with the final store, so that the state of the
caller's dicts after the call is observable. -/
noncomputable def simulateStore (options : List OptRef) (criteria : List Criterion)
    (g : ℕ → ℝ) (st : Store) : Option (List SimResult × Store) := do
  let r ← simLoopStore options criteria g 300 st 0 (initCountsRef options)
  pure (sortDesc SimResult.confidence
    (r.1.map fun nc => SimResult.mk nc.1 (round1 (nc.2 / 3))), r.2.1)

/-- Proof-side characterization of the slot-assignment loop: slots are
handed out as contiguous `range'` blocks in list order. -/
def slotsAux (priorities : List ℤ) : List ℤ → ℕ → List (ℤ × List ℕ)
  | [], _ => []
  | p :: ps, cur =>
    (p, List.range' cur (priorities.count p)) ::
      slotsAux priorities ps (cur + priorities.count p)

/-! ### Proof-side predicates and concrete witness data -/

/-- The dominance relation of the differentiating-criterion rule: the
target's gap on entry `e` is strictly below every other option's gap on
the same criterion (as computed by `gapFor`). -/
def Dominates (allExpl : List (String × List ExplEntry)) (others : List String)
    (e : ExplEntry) : Prop :=
  ∀ n ∈ others, ∀ g, gapFor allExpl e.id n = some g → e.gap_pct < g

/-- Witness data for the differentiating-criterion rule: winner `W`
dominates the other option `X` on criterion `P` only. -/
def wEntryP : ExplEntry := ExplEntry.mk 0 "P" 5 10 3

def wEntryQ : ExplEntry := ExplEntry.mk 1 "Q" 5 20 1

def wOtherP : ExplEntry := ExplEntry.mk 0 "P" 7 50 3

def wOtherQ : ExplEntry := ExplEntry.mk 1 "Q" 2 5 1

def wAllExpl : List (String × List ExplEntry) :=
  [("W", [wEntryP, wEntryQ]), ("X", [wOtherP, wOtherQ])]

def wOptions : List Opt := [Opt.mk "W" fun _ => 0, Opt.mk "X" fun _ => 0]

/-- Number of dynamic criteria: the number of `random.gauss` samples one
option consumes per simulation iteration. -/
def dynCount (criteria : List Criterion) : ℕ :=
  (criteria.filter fun c => c.dynamic).length

/-- Concrete stream for the shared-shock counterexample: sample `k` is
`k + 1`. -/
noncomputable def cg : ℕ → ℝ := fun k => (k : ℝ) + 1

/-- One dynamic benefit criterion, id 0, weight 1. -/
def cCrit : List Criterion := [Criterion.mk 0 "C" CritType.benefit true 1 false 1]

/-- Two options, both at the neutral value 5 on every criterion. -/
def cOpts : List Opt := [Opt.mk "a" fun _ => 5, Opt.mk "b" fun _ => 5]

/-- Junk default option used by index-with-default list access in
statements. -/
def defaultOpt : Opt := Opt.mk "" fun _ => 0

/-- Junk default criterion for index-with-default list access. -/
def defaultCrit : Criterion := Criterion.mk 0 "" CritType.benefit false 0 false 0

/-- Criterion payload for the boundary counterexample. -/
def cdC : CriterionData := CriterionData.mk "C" CritType.benefit true (some 1)

/-- A request with a well-formed criteria list but an empty options
list. -/
def emptyOptionsInput : AnalyzeInput :=
  AnalyzeInput.mk (some "goal") (some [cdC]) (some [])

/-- A request with the `criteria` key missing. -/
def missingCriteriaInput : AnalyzeInput :=
  AnalyzeInput.mk (some "goal") none (some [OptionData.mk "A" [InputValue.num 5]])

/-- The all-zeros sample stream. -/
noncomputable def zeroStream : ℕ → ℝ := fun _ => 0

/-- A one-entry store whose single dict is constantly 5 (the caller's
option values for the frame counterexample). -/
def store5 : Store := [fun _ => (5 : ℝ)]

/-- A single store-backed option pointing at entry 0. -/
def optRefs : List OptRef := [OptRef.mk "a" 0]

/-! ### Concrete data for the confidence-sum analysis

Eighteen options on one dynamic benefit criterion.  The sample stream
is chosen so that a scheduled winner gets a `+1` perturbation each
iteration while everyone else gets `0`; options 1-17 win two
iterations each and option 0 wins the remaining 266, so every win
count is `2 mod 3` and every rounded confidence carries a `+1/30`
error. -/

/-- The single criterion of the simulation counterexamples (the head of
`cCrit`). -/
def c18 : Criterion := Criterion.mk 0 "C" CritType.benefit true 1 false 1

/-- Names of the eighteen options of the rounding counterexample. -/
def nm18 (i : ℕ) : String :=
  (["o00", "o01", "o02", "o03", "o04", "o05", "o06", "o07", "o08", "o09",
    "o10", "o11", "o12", "o13", "o14", "o15", "o16", "o17"]).getD i ""

/-- Winner schedule: iterations 0-33 are won twice in a row by each of
options 1-17, every later iteration by option 0. -/
def winner18 (t : ℕ) : ℕ := if t < 34 then t / 2 + 1 else 0

/-- Sample stream realizing the schedule: sample `k` belongs to option
`k % 18` in iteration `k / 18` (option-major order, one dynamic
criterion) and is `1` exactly for the scheduled winner. -/
noncomputable def g18 : ℕ → ℝ := fun k => if k % 18 = winner18 (k / 18) then 1 else 0

/-- Eighteen options, all at the neutral value 5 on every criterion. -/
def opts18 : List Opt := (List.range 18).map fun i => Opt.mk (nm18 i) fun _ => 5

/-- The perturbed snapshot of an iteration whose scheduled winner is
`w`: option `w` moved to `6` on criterion 0, everyone else still at
`5`. -/
noncomputable def pOpts (w : ℕ) : List Opt :=
  (List.range 18).map fun i =>
    Opt.mk (nm18 i) fun k => if k = 0 then (if i = w then (6 : ℝ) else 5) else 5

/-- Computable twin of the win-count evolution under a known winner
schedule (`t` is the 0-based iteration number). -/
def bumpLoop (w : ℕ → ℕ) : ℕ → ℕ → List (String × ℕ) → Option (List (String × ℕ))
  | 0, _, counts => some counts
  | m + 1, t, counts =>
    match bump counts (nm18 (w t)) with
    | none => none
    | some counts' => bumpLoop w m (t + 1) counts'

/-- The win counts after the 300 scheduled iterations. -/
def counts18 : List (String × ℕ) :=
  [("o00", 266), ("o01", 2), ("o02", 2), ("o03", 2), ("o04", 2), ("o05", 2),
   ("o06", 2), ("o07", 2), ("o08", 2), ("o09", 2), ("o10", 2), ("o11", 2),
   ("o12", 2), ("o13", 2), ("o14", 2), ("o15", 2), ("o16", 2), ("o17", 2)]

/-- A single neutral option, on which the simulation completes. -/
def oneOpt : List Opt := [Opt.mk "a" fun _ => 5]

/-! ## Helper lemmas: weight calculator -/

lemma foldl_slots (priorities : List ℤ) (l : List ℤ) (acc : List (ℤ × List ℕ))
    (cur : ℕ) :
    l.foldl
      (fun (a : List (ℤ × List ℕ) × ℕ) p =>
        let count := priorities.count p
        (a.1 ++ [(p, List.range' a.2 count)], a.2 + count)) (acc, cur)
      = (acc ++ slotsAux priorities l cur,
         cur + (l.map fun p => priorities.count p).sum) := by
  induction l generalizing acc cur with
  | nil => simp [slotsAux]
  | cons p ps ih =>
    simp only [List.foldl_cons, slotsAux, List.map_cons, List.sum_cons]
    rw [ih]
    simp [List.append_assoc, Nat.add_assoc]

lemma prioritySlots_eq (priorities : List ℤ) :
    (prioritySlots priorities).1 = slotsAux priorities (sortedUnique priorities) 0 := by
  unfold prioritySlots
  rw [foldl_slots]
  simp

lemma lookup_slotsAux (priorities : List ℤ) (l : List ℤ) (cur : ℕ) (p : ℤ)
    (hnd : l.Nodup) (hsort : l.Pairwise (fun a b => a ≤ b)) (hp : p ∈ l) :
    (slotsAux priorities l cur).lookup p =
      some (List.range'
        (cur + ((l.filter fun q => decide (q < p)).map fun q => priorities.count q).sum)
        (priorities.count p)) := by
  induction l generalizing cur with
  | nil => cases hp
  | cons a t ih =>
    by_cases hpa : p = a
    · subst hpa
      have hfilter : ((p :: t).filter fun q => decide (q < p)) = [] := by
        rw [List.filter_eq_nil_iff]
        intro q hq
        rcases List.mem_cons.mp hq with h | h
        · subst h; simp
        · have : p ≤ q := (List.pairwise_cons.mp hsort).1 q h
          simp only [decide_eq_true_eq]
          omega
      simp [slotsAux, hfilter, List.lookup]
    · have hpt : p ∈ t := by
        rcases List.mem_cons.mp hp with h | h
        · exact absurd h hpa
        · exact h
      have hap : a < p := by
        have hle : a ≤ p := (List.pairwise_cons.mp hsort).1 p hpt
        omega
      have hfilter : ((a :: t).filter fun q => decide (q < p)) =
          a :: (t.filter fun q => decide (q < p)) := by
        simp [List.filter_cons, hap]
      rw [slotsAux, List.lookup_cons]
      have hbeq : (p == a) = false := by simpa using hpa
      rw [hbeq]
      rw [ih (cur + priorities.count a)
        (List.nodup_cons.mp hnd).2 (List.pairwise_cons.mp hsort).2 hpt]
      rw [hfilter]
      simp [Nat.add_assoc]

lemma sortedUnique_nodup (priorities : List ℤ) : (sortedUnique priorities).Nodup :=
  ((List.mergeSort_perm priorities.dedup _).nodup_iff).mpr (List.nodup_dedup _)

lemma sortedUnique_sorted (priorities : List ℤ) :
    (sortedUnique priorities).Pairwise (fun a b => a ≤ b) := by
  have h := @List.sorted_mergeSort ℤ (fun a b : ℤ => decide (a ≤ b))
    (fun a b c hab hbc => by
      simp only [decide_eq_true_eq] at *; omega)
    (fun a b => by
      simp only [Bool.or_eq_true, decide_eq_true_eq]; omega)
    priorities.dedup
  exact h.imp (fun h => by simpa using h)

lemma sortedUnique_mem (priorities : List ℤ) (p : ℤ) :
    p ∈ sortedUnique priorities ↔ p ∈ priorities := by
  unfold sortedUnique
  rw [List.mem_mergeSort, List.mem_dedup]

lemma sortedUnique_filter_sum (priorities : List ℤ) (p : ℤ) :
    (((sortedUnique priorities).filter fun q => decide (q < p)).map
        fun q => priorities.count q).sum =
      priorities.countP fun q => decide (q < p) := by
  have hperm : List.Perm (sortedUnique priorities) priorities.dedup :=
    List.mergeSort_perm priorities.dedup _
  have hfilter : List.Perm ((sortedUnique priorities).filter fun q => decide (q < p))
      (priorities.dedup.filter fun q => decide (q < p)) := hperm.filter _
  have hsum := (hfilter.map fun q => priorities.count q).sum_eq
  rw [hsum]
  exact List.sum_map_count_dedup_filter_eq_countP _ priorities

/-- The weight assigned at index `i` by `calculate_roc_weights_with_ties`:
the mean of the base weights over the contiguous block of positions
starting at the number of strictly-higher-priority entries. -/
lemma with_ties_getD (priorities : List ℤ) (i : ℕ) (hi : i < priorities.length) :
    (calculate_roc_weights_with_ties priorities).getD i 0 =
      (((List.range' (priorities.countP fun q => decide (q < priorities.getD i 0))
          (priorities.count (priorities.getD i 0))).map
            fun s => (calculate_roc_weights priorities.length).getD s 0).sum) /
        (priorities.count (priorities.getD i 0)) := by
  have hp : priorities.getD i 0 ∈ priorities := by
    rw [List.getD_eq_getElem _ _ hi]; exact priorities.getElem_mem hi
  have hlook : ((prioritySlots priorities).1).lookup (priorities.getD i 0) =
      some (List.range' (priorities.countP fun q => decide (q < priorities.getD i 0))
        (priorities.count (priorities.getD i 0))) := by
    rw [prioritySlots_eq]
    rw [lookup_slotsAux priorities _ 0 _ (sortedUnique_nodup _) (sortedUnique_sorted _)
      ((sortedUnique_mem _ _).mpr hp)]
    rw [sortedUnique_filter_sum]
    simp
  unfold calculate_roc_weights_with_ties
  rw [List.getD_eq_getElem?_getD]
  rw [List.getElem?_map]
  rw [List.getElem?_eq_getElem hi]
  simp only [Option.map_some', Option.getD_some]
  rw [show priorities[i] = priorities.getD i 0 from (List.getD_eq_getElem _ _ hi).symm]
  rw [hlook]
  simp

lemma roc_base3 : calculate_roc_weights 3 = [11/18, 5/18, 1/9] := by
  simp [calculate_roc_weights, List.range']
  norm_num

lemma with_ties_example :
    calculate_roc_weights_with_ties [1, 1, 2] = [(4 : ℚ)/9, 4/9, 1/9] := by
  have hlen : (calculate_roc_weights_with_ties [1, 1, 2]).length = 3 := by
    simp [calculate_roc_weights_with_ties]
  apply List.ext_getElem (by rw [hlen]; rfl)
  intro k hk1 hk2
  have hk3 : k < 3 := by rw [hlen] at hk1; exact hk1
  rw [← List.getD_eq_getElem _ 0 hk1]
  interval_cases k
  · rw [with_ties_getD [1, 1, 2] 0 (by decide)]
    rw [show ([1, 1, 2] : List ℤ).getD 0 0 = 1 from rfl]
    rw [show (([1, 1, 2] : List ℤ).countP fun q => decide (q < 1)) = 0 from by decide]
    rw [show ([1, 1, 2] : List ℤ).count 1 = 2 from by decide]
    rw [show List.range' 0 2 = [0, 1] from rfl]
    rw [show ([1, 1, 2] : List ℤ).length = 3 from rfl, roc_base3]
    norm_num
  · rw [with_ties_getD [1, 1, 2] 1 (by decide)]
    rw [show ([1, 1, 2] : List ℤ).getD 1 0 = 1 from rfl]
    rw [show (([1, 1, 2] : List ℤ).countP fun q => decide (q < 1)) = 0 from by decide]
    rw [show ([1, 1, 2] : List ℤ).count 1 = 2 from by decide]
    rw [show List.range' 0 2 = [0, 1] from rfl]
    rw [show ([1, 1, 2] : List ℤ).length = 3 from rfl, roc_base3]
    norm_num
  · rw [with_ties_getD [1, 1, 2] 2 (by decide)]
    rw [show ([1, 1, 2] : List ℤ).getD 2 0 = 2 from rfl]
    rw [show (([1, 1, 2] : List ℤ).countP fun q => decide (q < 2)) = 2 from by decide]
    rw [show ([1, 1, 2] : List ℤ).count 2 = 1 from by decide]
    rw [show List.range' 2 1 = [2] from rfl]
    rw [show ([1, 1, 2] : List ℤ).length = 3 from rfl, roc_base3]
    norm_num

/-! ## Claim C5 -/

/-- C5: for every priority list containing ties, all criteria sharing a
priority value receive the identical weight, equal to the arithmetic
mean of the base rank-reciprocal weights at the tied block's contiguous
positions (the block starts after all strictly-more-important entries
and has the length of the tie group); in particular for priorities
`[1, 1, 2]` the returned weights are `[4/9, 4/9, 1/9]`, approximately
`[0.4444, 0.4444, 0.1111]`. -/
theorem claim_C5_roc_tied_weights (priorities : List ℤ) (i j : ℕ)
    (hi : i < priorities.length) (hj : j < priorities.length)
    (heq : priorities.getD i 0 = priorities.getD j 0) :
    (calculate_roc_weights_with_ties priorities).getD i 0 =
      (calculate_roc_weights_with_ties priorities).getD j 0 ∧
    (calculate_roc_weights_with_ties priorities).getD i 0 =
      ((List.range' (priorities.countP fun q => decide (q < priorities.getD i 0))
          (priorities.count (priorities.getD i 0))).map
            fun s => (calculate_roc_weights priorities.length).getD s 0).sum /
        (priorities.count (priorities.getD i 0)) ∧
    calculate_roc_weights_with_ties [1, 1, 2] = [4/9, 4/9, 1/9] ∧
    |(4 : ℚ)/9 - 4444/10000| < 1/10000 ∧ |(1 : ℚ)/9 - 1111/10000| < 1/10000 := by
  refine ⟨?_, with_ties_getD priorities i hi, with_ties_example,
    by rw [abs_sub_lt_iff]; norm_num, by rw [abs_sub_lt_iff]; norm_num⟩
  rw [with_ties_getD priorities i hi, with_ties_getD priorities j hj, heq]

theorem claim_C5_roc_tied_weights_witness :
    (calculate_roc_weights_with_ties [1, 1, 2]).getD 0 0 =
      (calculate_roc_weights_with_ties [1, 1, 2]).getD 1 0 :=
  (claim_C5_roc_tied_weights [1, 1, 2] 0 1 (by decide) (by decide) (by decide)).1

/-! ## Helper lemmas: base ROC weights -/

lemma range'_map_sum (a k : ℕ) (f : ℕ → ℚ) :
    ((List.range' a k).map f).sum = ∑ j ∈ Finset.Ico a (a + k), f j := by
  rw [Nat.Ico_eq_range']
  simp only [Nat.add_sub_cancel_left]
  rfl

lemma roc_length (n : ℕ) : (calculate_roc_weights n).length = n := by
  simp [calculate_roc_weights]

lemma roc_getD (n i : ℕ) (hi : i < n) :
    (calculate_roc_weights n).getD i 0 =
      (∑ j ∈ Finset.Icc (i + 1) n, (1 : ℚ) / j) / n := by
  unfold calculate_roc_weights
  rw [List.getD_eq_getElem _ _ (by simpa using hi)]
  rw [List.getElem_map, List.getElem_range']
  simp only [one_mul]
  congr 1
  rw [range'_map_sum]
  have h1 : 1 + i + (n + 1 - (1 + i)) = n + 1 := by omega
  rw [h1]
  have h2 : 1 + i = i + 1 := by omega
  rw [h2, Nat.Ico_succ_right]

lemma roc_double_sum (n : ℕ) :
    ∑ i ∈ Finset.Icc 1 n, ∑ j ∈ Finset.Icc i n, (1 : ℚ) / j = n := by
  induction n with
  | zero => simp
  | succ n ih =>
    rw [Finset.sum_Icc_succ_top (by omega : 1 ≤ n + 1)]
    have hinner : ∀ i ∈ Finset.Icc 1 n, ∑ j ∈ Finset.Icc i (n + 1), (1 : ℚ) / j
        = (∑ j ∈ Finset.Icc i n, (1 : ℚ) / j) + 1 / (n + 1 : ℕ) := by
      intro i hi
      have hle : i ≤ n + 1 := by
        have := (Finset.mem_Icc.mp hi).2; omega
      rw [Finset.sum_Icc_succ_top hle]
    rw [Finset.sum_congr rfl hinner, Finset.sum_add_distrib, ih]
    rw [Finset.Icc_self, Finset.sum_singleton]
    rw [Finset.sum_const, Nat.card_Icc]
    simp only [Nat.add_sub_cancel, nsmul_eq_mul]
    have hne : ((n : ℚ) + 1) ≠ 0 := by positivity
    push_cast
    field_simp
    ring

lemma roc_sum (n : ℕ) (hn : 0 < n) : (calculate_roc_weights n).sum = 1 := by
  unfold calculate_roc_weights
  rw [range'_map_sum]
  have h1 : 1 + n = n + 1 := by omega
  rw [h1, Nat.Ico_succ_right]
  have hinner : ∀ i ∈ Finset.Icc 1 n,
      ((List.range' i (n + 1 - i)).map fun j : ℕ => (1 : ℚ) / (j : ℚ)).sum / n
        = (∑ j ∈ Finset.Icc i n, (1 : ℚ) / j) / n := by
    intro i hi
    have hle : i ≤ n := (Finset.mem_Icc.mp hi).2
    rw [range'_map_sum]
    have h2 : i + (n + 1 - i) = n + 1 := by omega
    rw [h2, Nat.Ico_succ_right]
  rw [Finset.sum_congr rfl hinner, ← Finset.sum_div, roc_double_sum]
  have hne : (n : ℚ) ≠ 0 := by
    exact_mod_cast Nat.pos_iff_ne_zero.mp hn
  field_simp

lemma roc_strict (n i j : ℕ) (hij : i < j) (hj : j < n) :
    (calculate_roc_weights n).getD j 0 < (calculate_roc_weights n).getD i 0 := by
  rw [roc_getD n i (by omega), roc_getD n j hj]
  have hn : (0 : ℚ) < n := by exact_mod_cast Nat.pos_of_ne_zero (by omega)
  rw [div_lt_div_iff_of_pos_right hn]
  apply Finset.sum_lt_sum_of_subset (Finset.Icc_subset_Icc (by omega) le_rfl)
    (i := i + 1)
  · rw [Finset.mem_Icc]; omega
  · rw [Finset.mem_Icc]; omega
  · positivity
  · intro k _ _
    positivity

lemma with_ties_nodup_getD (priorities : List ℤ) (hnd : priorities.Nodup) (i : ℕ)
    (hi : i < priorities.length) :
    (calculate_roc_weights_with_ties priorities).getD i 0 =
      (calculate_roc_weights priorities.length).getD
        (priorities.countP fun q => decide (q < priorities.getD i 0)) 0 := by
  rw [with_ties_getD priorities i hi]
  have hc : priorities.count (priorities.getD i 0) = 1 :=
    List.count_eq_one_of_mem hnd
      (by rw [List.getD_eq_getElem _ _ hi]; exact priorities.getElem_mem hi)
  rw [hc]
  simp [List.range']

/-! ## Claim C6 -/

/-- C6: for every priority list of length `n` with no ties, the weight
at 1-indexed priority position `i` (0-indexed `i - 1`) equals
`(1/i + 1/(i+1) + ... + 1/n) / n`, the weights sum to exactly `1`, and
they are strictly decreasing along the priority order; a duplicate-free
priority list receives exactly these base weights, each entry's position
being the number of strictly-more-important (smaller) priorities. -/
theorem claim_C6_roc_strict_weights (n : ℕ) (priorities : List ℤ) (hn : 0 < n)
    (hnd : priorities.Nodup) :
    (∀ i, i < n → (calculate_roc_weights n).getD i 0 =
      (∑ j ∈ Finset.Icc (i + 1) n, (1 : ℚ) / j) / n) ∧
    (calculate_roc_weights n).sum = 1 ∧
    (∀ i j, i < j → j < n →
      (calculate_roc_weights n).getD j 0 < (calculate_roc_weights n).getD i 0) ∧
    (∀ i, i < priorities.length →
      (calculate_roc_weights_with_ties priorities).getD i 0 =
        (calculate_roc_weights priorities.length).getD
          (priorities.countP fun q => decide (q < priorities.getD i 0)) 0) :=
  ⟨fun i hi => roc_getD n i hi, roc_sum n hn,
    fun i j hij hj => roc_strict n i j hij hj,
    fun i hi => with_ties_nodup_getD priorities hnd i hi⟩

theorem claim_C6_roc_strict_weights_witness :
    (calculate_roc_weights 3).sum = 1 ∧
    (calculate_roc_weights 3).getD 1 0 < (calculate_roc_weights 3).getD 0 0 :=
  ⟨(claim_C6_roc_strict_weights 3 [5, 2, 7] (by decide) (by decide)).2.1,
   (claim_C6_roc_strict_weights 3 [5, 2, 7] (by decide) (by decide)).2.2.1 0 1
     (by decide) (by decide)⟩

/-! ## Claim C10 -/

/-- C10: for every finite numeric input value, `value_to_label` is total
and returns one of the five labels: the value is rounded and clamped
into `[1, 9]` before the lookup, so the lookup always succeeds and the
`"medium"` default branch of `.get` is unreachable. -/
theorem claim_C10_value_to_label_total (v : ℝ) :
    (value_label_map.lookup (max 1 (min 9 (pyRound v)))).isSome = true ∧
    value_to_label v ∈ ["very low", "low", "medium", "high", "very high"] := by
  have key : ∀ r : ℤ, 1 ≤ r → r ≤ 9 →
      (value_label_map.lookup r).isSome = true ∧
      (value_label_map.lookup r).getD "medium" ∈
        ["very low", "low", "medium", "high", "very high"] := by
    intro r h1 h2
    interval_cases r <;> exact ⟨rfl, by decide⟩
  have h1 : (1 : ℤ) ≤ max 1 (min 9 (pyRound v)) := le_max_left _ _
  have h2 : max 1 (min 9 (pyRound v)) ≤ 9 :=
    max_le (by norm_num) (min_le_left _ _)
  exact key _ h1 h2

/-! ## Helper lemmas: stable descending sort and list max/min -/

instance : Std.Antisymm (fun x1 x2 : ℝ => x1 ≤ x2) := ⟨fun h h' => le_antisymm h h'⟩

lemma max?_eq_some_iff_real {l : List ℝ} {a : ℝ} :
    l.max? = some a ↔ a ∈ l ∧ ∀ b ∈ l, b ≤ a :=
  List.max?_eq_some_iff (fun a => le_refl a) (fun a b => max_choice a b)
    (fun a b c => max_le_iff)

lemma min?_eq_some_iff_real {l : List ℝ} {a : ℝ} :
    l.min? = some a ↔ a ∈ l ∧ ∀ b ∈ l, a ≤ b :=
  List.min?_eq_some_iff (fun a => le_refl a) (fun a b => min_choice a b)
    (fun a b c => le_min_iff)

lemma max?_isSome_of_ne_nil {l : List ℝ} (h : l ≠ []) : l.max?.isSome = true := by
  cases l with
  | nil => exact absurd rfl h
  | cons x xs => simp [List.max?_cons']

lemma min?_isSome_of_ne_nil {l : List ℝ} (h : l ≠ []) : l.min?.isSome = true := by
  cases l with
  | nil => exact absurd rfl h
  | cons x xs => simp [List.min?_cons']

section SortDesc

variable {α β : Type} [LinearOrder β] (key : α → β)

lemma insertDesc_perm (x : α) (l : List α) :
    List.Perm (insertDesc key x l) (x :: l) := by
  induction l with
  | nil => exact .refl _
  | cons y ys ih =>
    rw [insertDesc]
    split
    · exact .refl _
    · exact .trans (.cons y ih) (.swap x y ys)

lemma mem_insertDesc {x a : α} {l : List α} :
    a ∈ insertDesc key x l ↔ a = x ∨ a ∈ l := by
  rw [(insertDesc_perm key x l).mem_iff, List.mem_cons]

lemma insertDesc_sorted (x : α) (l : List α)
    (h : l.Pairwise fun a b => key b ≤ key a) :
    (insertDesc key x l).Pairwise fun a b => key b ≤ key a := by
  induction l with
  | nil => simp [insertDesc]
  | cons y ys ih =>
    rw [insertDesc]
    rcases List.pairwise_cons.mp h with ⟨hy, hys⟩
    split
    · rename_i hlt
      refine List.pairwise_cons.mpr ⟨?_, h⟩
      intro b hb
      rcases List.mem_cons.mp hb with rfl | hb
      · exact le_of_lt hlt
      · exact le_trans (hy b hb) (le_of_lt hlt)
    · rename_i hnlt
      refine List.pairwise_cons.mpr ⟨?_, ih hys⟩
      intro b hb
      rcases (mem_insertDesc key).mp hb with rfl | hb
      · exact le_of_not_lt hnlt
      · exact hy b hb

lemma sortDesc_core_perm (l : List α) (acc : List α) :
    List.Perm (l.foldl (fun a x => insertDesc key x a) acc) (acc ++ l) := by
  induction l generalizing acc with
  | nil => simp
  | cons x xs ih =>
    rw [List.foldl_cons]
    refine .trans (ih (insertDesc key x acc)) ?_
    refine .trans (((insertDesc_perm key x acc).append_right xs)) ?_
    exact (List.perm_middle).symm.trans (List.Perm.refl _)

lemma sortDesc_perm (l : List α) : List.Perm (sortDesc key l) l :=
  sortDesc_core_perm key l []

lemma mem_sortDesc {a : α} {l : List α} : a ∈ sortDesc key l ↔ a ∈ l :=
  (sortDesc_perm key l).mem_iff

lemma sortDesc_core_sorted (l : List α) (acc : List α)
    (hacc : acc.Pairwise fun a b => key b ≤ key a) :
    (l.foldl (fun a x => insertDesc key x a) acc).Pairwise
      fun a b => key b ≤ key a := by
  induction l generalizing acc with
  | nil => simpa
  | cons x xs ih => exact ih _ (insertDesc_sorted key x acc hacc)

lemma sortDesc_sorted (l : List α) :
    (sortDesc key l).Pairwise fun a b => key b ≤ key a :=
  sortDesc_core_sorted key l [] List.Pairwise.nil

lemma insertDesc_of_forall_not_lt {x : α} {l : List α}
    (h : ∀ y ∈ l, ¬ key y < key x) : insertDesc key x l = l ++ [x] := by
  induction l with
  | nil => rfl
  | cons y ys ih =>
    rw [insertDesc, if_neg (h y (List.mem_cons_self y ys))]
    rw [ih fun z hz => h z (List.mem_cons_of_mem y hz)]
    rfl

lemma sortDesc_core_of_sorted (l acc : List α)
    (h : (acc ++ l).Pairwise fun a b => key b ≤ key a) :
    l.foldl (fun a x => insertDesc key x a) acc = acc ++ l := by
  induction l generalizing acc with
  | nil => simp
  | cons x xs ih =>
    rw [List.foldl_cons]
    have hx : insertDesc key x acc = acc ++ [x] := by
      apply insertDesc_of_forall_not_lt
      intro y hy
      have : key x ≤ key y := by
        have := List.pairwise_append.mp h
        exact this.2.2 y hy x (List.mem_cons_self x xs)
      exact not_lt_of_le this
    rw [hx, ih (acc ++ [x]) (by simpa using h)]
    simp

/-- Python's stable descending sort leaves an already descending-sorted
list unchanged. -/
lemma sortDesc_of_sorted (l : List α)
    (h : l.Pairwise fun a b => key b ≤ key a) : sortDesc key l = l := by
  unfold sortDesc
  rw [sortDesc_core_of_sorted key l [] (by simpa using h)]
  rfl

/-- The head of the sorted output carries a maximal key. -/
lemma sortDesc_head_max {l : List α} {m : α} {rest : List α}
    (hs : sortDesc key l = m :: rest) :
    m ∈ l ∧ ∀ a ∈ l, key a ≤ key m := by
  have hsorted := sortDesc_sorted key l
  rw [hs] at hsorted
  have hmem : m ∈ l := (mem_sortDesc key).mp (by rw [hs]; exact List.mem_cons_self m rest)
  refine ⟨hmem, fun a ha => ?_⟩
  have : a ∈ sortDesc key l := (mem_sortDesc key).mpr ha
  rw [hs] at this
  rcases List.mem_cons.mp this with rfl | hrest
  · exact le_refl _
  · exact (List.pairwise_cons.mp hsorted).1 a hrest

end SortDesc

/-! ## Helper lemmas: scorer -/

lemma mapM_option_eq_some_map {α β : Type} {f : α → Option β} {g : α → β} :
    ∀ {l : List α}, (∀ a ∈ l, f a = some (g a)) → l.mapM f = some (l.map g)
  | [], _ => rfl
  | a :: as, h => by
    rw [List.mapM_cons, h a (List.mem_cons_self a as),
      mapM_option_eq_some_map fun b hb => h b (List.mem_cons_of_mem a hb)]
    rfl

lemma normColumn_ne_nil {options : List Opt} (h : options ≠ []) (c : Criterion) :
    normColumn options c ≠ [] := by
  unfold normColumn
  simpa using h

lemma colBest_eq_some {options : List Opt} (h : options ≠ []) (c : Criterion) :
    colBest options c = some (bestVal options c) := by
  have hs : (colBest options c).isSome = true := by
    unfold colBest
    cases c.ctype
    · exact max?_isSome_of_ne_nil (normColumn_ne_nil h c)
    · exact min?_isSome_of_ne_nil (normColumn_ne_nil h c)
  cases hcb : colBest options c with
  | none => rw [hcb] at hs; exact absurd hs (by simp)
  | some b => unfold bestVal; rw [hcb]; rfl

lemma colWorst_eq_some {options : List Opt} (h : options ≠ []) (c : Criterion) :
    colWorst options c = some (worstVal options c) := by
  have hs : (colWorst options c).isSome = true := by
    unfold colWorst
    cases c.ctype
    · exact min?_isSome_of_ne_nil (normColumn_ne_nil h c)
    · exact max?_isSome_of_ne_nil (normColumn_ne_nil h c)
  cases hcb : colWorst options c with
  | none => rw [hcb] at hs; exact absurd hs (by simp)
  | some b => unfold worstVal; rw [hcb]; rfl

lemma dBest_eq_some {options : List Opt} {criteria : List Criterion} {o : Opt}
    (h : options ≠ []) :
    dBest options criteria o = some (dBestVal options criteria o) := by
  unfold dBest dBestVal
  rw [mapM_option_eq_some_map
    (g := fun c => (normVal options c o - bestVal options c) ^ 2)
    (fun c _ => by rw [colBest_eq_some h c]; rfl)]
  rfl

lemma dWorst_eq_some {options : List Opt} {criteria : List Criterion} {o : Opt}
    (h : options ≠ []) :
    dWorst options criteria o = some (dWorstVal options criteria o) := by
  unfold dWorst dWorstVal
  rw [mapM_option_eq_some_map
    (g := fun c => (normVal options c o - worstVal options c) ^ 2)
    (fun c _ => by rw [colWorst_eq_some h c]; rfl)]
  rfl

lemma scoreOf_eq_some {options : List Opt} {criteria : List Criterion} {o : Opt}
    (h : options ≠ []) :
    scoreOf options criteria o = some (scoreVal options criteria o) := by
  unfold scoreOf scoreVal
  rw [dBest_eq_some h, dWorst_eq_some h]
  rfl

lemma run_topsis_eq_some {options : List Opt} {criteria : List Criterion}
    (h : options ≠ []) :
    run_topsis options criteria = some
      (sortDesc ScoreEntry.score
        (options.map fun o => ScoreEntry.mk o.name (scoreVal options criteria o)),
       criteria.map fun c => (c.id, bestVal options c),
       criteria.map fun c => (c.id, worstVal options c)) := by
  unfold run_topsis
  have h1 := mapM_option_eq_some_map
    (f := fun c => (colBest options c).map fun b => (c.id, b))
    (g := fun c => (c.id, bestVal options c))
    (l := criteria) (fun c _ => by simp [colBest_eq_some h c])
  have h2 := mapM_option_eq_some_map
    (f := fun c => (colWorst options c).map fun w => (c.id, w))
    (g := fun c => (c.id, worstVal options c))
    (l := criteria) (fun c _ => by simp [colWorst_eq_some h c])
  have h3 := mapM_option_eq_some_map
    (f := fun o => (scoreOf options criteria o).map fun s => ScoreEntry.mk o.name s)
    (g := fun o => ScoreEntry.mk o.name (scoreVal options criteria o))
    (l := options) (fun o _ => by simp [scoreOf_eq_some h])
  simp only [h1, h2, h3]
  rfl

lemma dBestVal_nonneg (options : List Opt) (criteria : List Criterion) (o : Opt) :
    0 ≤ dBestVal options criteria o := Real.sqrt_nonneg _

lemma dWorstVal_nonneg (options : List Opt) (criteria : List Criterion) (o : Opt) :
    0 ≤ dWorstVal options criteria o := Real.sqrt_nonneg _

lemma scoreVal_mem_unit (options : List Opt) (criteria : List Criterion) (o : Opt) :
    0 ≤ scoreVal options criteria o ∧ scoreVal options criteria o ≤ 1 := by
  unfold scoreVal
  split
  · rename_i hpos
    constructor
    · exact div_nonneg (dWorstVal_nonneg _ _ _) (le_of_lt hpos)
    · rw [div_le_one hpos]
      exact le_add_of_nonneg_left (dBestVal_nonneg _ _ _)
  · norm_num

lemma dBestVal_eq_zero {options : List Opt} {criteria : List Criterion} {o : Opt}
    (heq : ∀ c ∈ criteria, normVal options c o = bestVal options c) :
    dBestVal options criteria o = 0 := by
  unfold dBestVal
  rw [List.sum_eq_zero, Real.sqrt_zero]
  intro x hx
  rcases List.mem_map.mp hx with ⟨c, hc, rfl⟩
  rw [heq c hc]
  ring

lemma dWorstVal_eq_zero {options : List Opt} {criteria : List Criterion} {o : Opt}
    (heq : ∀ c ∈ criteria, normVal options c o = worstVal options c) :
    dWorstVal options criteria o = 0 := by
  unfold dWorstVal
  rw [List.sum_eq_zero, Real.sqrt_zero]
  intro x hx
  rcases List.mem_map.mp hx with ⟨c, hc, rfl⟩
  rw [heq c hc]
  ring

lemma scoreVal_eq_one {options : List Opt} {criteria : List Criterion} {o : Opt}
    (heq : ∀ c ∈ criteria, normVal options c o = bestVal options c)
    (hd2 : dWorstVal options criteria o ≠ 0) :
    scoreVal options criteria o = 1 := by
  have h1 : dBestVal options criteria o = 0 := dBestVal_eq_zero heq
  have h2 : 0 < dWorstVal options criteria o :=
    lt_of_le_of_ne (dWorstVal_nonneg _ _ _) (Ne.symm hd2)
  unfold scoreVal
  rw [h1, if_pos (by linarith)]
  field_simp

lemma scoreVal_eq_zero {options : List Opt} {criteria : List Criterion} {o : Opt}
    (heq : ∀ c ∈ criteria, normVal options c o = worstVal options c)
    (hd1 : dBestVal options criteria o ≠ 0) :
    scoreVal options criteria o = 0 := by
  have h2 : dWorstVal options criteria o = 0 := dWorstVal_eq_zero heq
  have h1 : 0 < dBestVal options criteria o :=
    lt_of_le_of_ne (dBestVal_nonneg _ _ _) (Ne.symm hd1)
  unfold scoreVal
  rw [h2, if_pos (by linarith)]
  simp

lemma scoreVal_eq_half {options : List Opt} {criteria : List Criterion} {o : Opt}
    (h1 : dBestVal options criteria o = 0) (h2 : dWorstVal options criteria o = 0) :
    scoreVal options criteria o = 0.5 := by
  unfold scoreVal
  rw [h1, h2, if_neg (by norm_num)]

/-! ## Claim C4 -/

/-- C4: for every non-empty options and criteria input, every score in
the ranked result of `run_topsis` lies in `[0, 1]`; an option whose
weighted-normalized values equal the ideal-best vector on every
criterion (with a nonzero distance to the ideal-worst point) appears
with score exactly `1`; an option equal to the ideal-worst vector on
every criterion (with nonzero distance to the ideal-best point) appears
with score exactly `0`; and an option whose distances to both ideal
points are zero appears with the default score `0.5`. -/
theorem claim_C4_topsis_score_range (options : List Opt) (criteria : List Criterion)
    (hne : options ≠ []) (hcne : criteria ≠ [])
    (out : List ScoreEntry × List (ℕ × ℝ) × List (ℕ × ℝ))
    (hrun : run_topsis options criteria = some out) :
    (∀ e ∈ out.1, 0 ≤ e.score ∧ e.score ≤ 1) ∧
    (∀ o ∈ options, (∀ c ∈ criteria, normVal options c o = bestVal options c) →
      dWorstVal options criteria o ≠ 0 → ScoreEntry.mk o.name 1 ∈ out.1) ∧
    (∀ o ∈ options, (∀ c ∈ criteria, normVal options c o = worstVal options c) →
      dBestVal options criteria o ≠ 0 → ScoreEntry.mk o.name 0 ∈ out.1) ∧
    (∀ o ∈ options, dBestVal options criteria o = 0 →
      dWorstVal options criteria o = 0 → ScoreEntry.mk o.name 0.5 ∈ out.1) := by
  rw [run_topsis_eq_some hne] at hrun
  have hout : out.1 = sortDesc ScoreEntry.score
      (options.map fun o => ScoreEntry.mk o.name (scoreVal options criteria o)) := by
    rw [← Option.some_inj.mp hrun]
  refine ⟨?_, ?_, ?_, ?_⟩
  · intro e he
    rw [hout] at he
    rcases List.mem_map.mp ((mem_sortDesc _).mp he) with ⟨o, _, rfl⟩
    exact scoreVal_mem_unit options criteria o
  · intro o ho heq hd2
    rw [hout, mem_sortDesc]
    rw [← scoreVal_eq_one heq hd2]
    exact List.mem_map.mpr ⟨o, ho, rfl⟩
  · intro o ho heq hd1
    rw [hout, mem_sortDesc]
    rw [← scoreVal_eq_zero heq hd1]
    exact List.mem_map.mpr ⟨o, ho, rfl⟩
  · intro o ho h1 h2
    rw [hout, mem_sortDesc]
    rw [← scoreVal_eq_half h1 h2]
    exact List.mem_map.mpr ⟨o, ho, rfl⟩

lemma ex_den : den exOptions exCrit0 = 1 := by
  unfold den exOptions exOptA exOptB exCrit0
  norm_num

lemma ex_normA : normVal exOptions exCrit0 exOptA = 0 := by
  unfold normVal
  rw [ex_den]
  unfold exOptA exCrit0
  norm_num

lemma ex_normB : normVal exOptions exCrit0 exOptB = 1 := by
  unfold normVal
  rw [ex_den]
  unfold exOptB exCrit0
  norm_num

lemma ex_normColumn : normColumn exOptions exCrit0 = [0, 1] := by
  rw [show normColumn exOptions exCrit0 =
    [normVal exOptions exCrit0 exOptA, normVal exOptions exCrit0 exOptB] from rfl]
  rw [ex_normA, ex_normB]

lemma ex_bestVal : bestVal exOptions exCrit0 = 1 := by
  unfold bestVal colBest
  rw [show exCrit0.ctype = CritType.benefit from rfl]
  rw [ex_normColumn]
  rw [show ([0, 1] : List ℝ).max? = some 1 from max?_eq_some_iff_real.mpr
    (by constructor <;> simp)]
  rfl

lemma ex_worstVal : worstVal exOptions exCrit0 = 0 := by
  unfold worstVal colWorst
  rw [show exCrit0.ctype = CritType.benefit from rfl]
  rw [ex_normColumn]
  rw [show ([0, 1] : List ℝ).min? = some 0 from min?_eq_some_iff_real.mpr
    (by constructor <;> simp)]
  rfl

lemma ex_dWorstB : dWorstVal exOptions exCriteria exOptB = 1 := by
  unfold dWorstVal
  rw [show exCriteria = [exCrit0] from rfl]
  rw [List.map_cons, List.map_nil, ex_normB, ex_worstVal]
  norm_num

theorem claim_C4_topsis_score_range_witness :
    ScoreEntry.mk "B" 1 ∈ sortDesc ScoreEntry.score
      (exOptions.map fun o => ScoreEntry.mk o.name (scoreVal exOptions exCriteria o)) := by
  have hne : exOptions ≠ [] := by unfold exOptions; simp
  have hcne : exCriteria ≠ [] := by unfold exCriteria; simp
  have h := (claim_C4_topsis_score_range exOptions exCriteria hne hcne _
    (run_topsis_eq_some hne)).2.1 exOptB (by unfold exOptions; simp)
    (fun c hc => by
      rw [show c = exCrit0 from by
        rcases (List.mem_singleton).mp hc with rfl; rfl]
      rw [ex_normB, ex_bestVal])
    (by rw [ex_dWorstB]; norm_num)
  exact h

/-! ## Helper lemmas: scale invariance -/

lemma mapM_option_congr {α β : Type} {f g : α → Option β} :
    ∀ {l : List α}, (∀ a ∈ l, f a = g a) → l.mapM f = l.mapM g
  | [], _ => rfl
  | a :: as, h => by
    rw [List.mapM_cons, List.mapM_cons, h a (List.mem_cons_self a as),
      mapM_option_congr fun b hb => h b (List.mem_cons_of_mem a hb)]

lemma mapM_option_map {α β γ : Type} (g : α → β) (f : β → Option γ) :
    ∀ (l : List α), (l.map g).mapM f = l.mapM fun a => f (g a)
  | [] => rfl
  | a :: as => by
    rw [List.map_cons, List.mapM_cons, List.mapM_cons, mapM_option_map g f as]

lemma scale_sq (options : List Opt) (k : ℝ) (cid : ℕ) :
    ((scaleCrit k cid options).map fun o => o.values cid ^ 2).sum =
      k ^ 2 * ((options.map fun o => o.values cid ^ 2).sum) := by
  unfold scaleCrit
  rw [List.map_map]
  rw [show ((fun o : Opt => o.values cid ^ 2) ∘ scaleOpt k cid) =
      fun o : Opt => k ^ 2 * o.values cid ^ 2 from funext fun o => by
    unfold scaleOpt; simp [mul_pow]]
  exact List.sum_map_mul_left options (fun o => o.values cid ^ 2) (k ^ 2)

lemma scale_sq_other (options : List Opt) (k : ℝ) (cid c : ℕ) (hne : c ≠ cid) :
    ((scaleCrit k cid options).map fun o => o.values c ^ 2).sum =
      ((options.map fun o => o.values c ^ 2).sum) := by
  unfold scaleCrit
  rw [List.map_map]
  congr 1
  apply List.map_congr_left
  intro o _
  unfold scaleOpt
  simp [hne]

lemma scale_normVal (options : List Opt) (c : Criterion) (k : ℝ) (cid : ℕ)
    (hk : 0 < k) {o : Opt} (ho : o ∈ options) :
    normVal (scaleCrit k cid options) c (scaleOpt k cid o) = normVal options c o := by
  by_cases hc : c.id = cid
  · subst hc
    have hsq := scale_sq options k c.id
    unfold normVal den
    rw [hsq]
    have hvals : (scaleOpt k c.id o).values c.id = k * o.values c.id := by
      unfold scaleOpt; simp
    rw [hvals]
    set sq := (options.map fun o => o.values c.id ^ 2).sum with hsqdef
    by_cases hpos : sq > 0
    · rw [if_pos hpos, if_pos (by positivity)]
      rw [Real.sqrt_mul (by positivity) sq]
      rw [show Real.sqrt (k ^ 2) = k from by
        rw [Real.sqrt_sq (le_of_lt hk)]]
      have hsqrt : Real.sqrt sq ≠ 0 := by
        apply ne_of_gt
        exact Real.sqrt_pos.mpr hpos
      field_simp
      ring
    · rw [if_neg hpos, if_neg (by
        intro hcon
        apply hpos
        have hk2 : (0 : ℝ) < k ^ 2 := by positivity
        nlinarith)]
      have hzero : o.values c.id = 0 := by
        have hnn : ∀ x ∈ options.map fun o => o.values c.id ^ 2, 0 ≤ x := by
          intro x hx
          rcases List.mem_map.mp hx with ⟨o', _, rfl⟩
          positivity
        have hsum0 : sq = 0 := by
          rcases lt_or_eq_of_le (List.sum_nonneg hnn) with hlt | heq
          · exact absurd hlt hpos
          · exact heq.symm
        have := List.all_zero_of_le_zero_le_of_sum_eq_zero hnn hsum0
          (x := o.values c.id ^ 2) (List.mem_map.mpr ⟨o, ho, rfl⟩)
        exact pow_eq_zero_iff (by norm_num) |>.mp this
      rw [hzero]
      ring_nf
  · unfold normVal den
    rw [scale_sq_other options k cid c.id hc]
    have hvals : (scaleOpt k cid o).values c.id = o.values c.id := by
      unfold scaleOpt; simp [hc]
    rw [hvals]

lemma scale_normColumn (options : List Opt) (c : Criterion) (k : ℝ) (cid : ℕ)
    (hk : 0 < k) :
    normColumn (scaleCrit k cid options) c = normColumn options c := by
  unfold normColumn scaleCrit
  rw [List.map_map]
  apply List.map_congr_left
  intro o ho
  exact scale_normVal options c k cid hk ho

lemma scale_colBest (options : List Opt) (c : Criterion) (k : ℝ) (cid : ℕ)
    (hk : 0 < k) :
    colBest (scaleCrit k cid options) c = colBest options c := by
  unfold colBest
  rw [scale_normColumn options c k cid hk]

lemma scale_colWorst (options : List Opt) (c : Criterion) (k : ℝ) (cid : ℕ)
    (hk : 0 < k) :
    colWorst (scaleCrit k cid options) c = colWorst options c := by
  unfold colWorst
  rw [scale_normColumn options c k cid hk]

lemma scale_scoreOf (options : List Opt) (criteria : List Criterion) (k : ℝ)
    (cid : ℕ) (hk : 0 < k) {o : Opt} (ho : o ∈ options) :
    scoreOf (scaleCrit k cid options) criteria (scaleOpt k cid o) =
      scoreOf options criteria o := by
  unfold scoreOf dBest dWorst
  rw [mapM_option_congr
    (f := fun c => (colBest (scaleCrit k cid options) c).map fun b =>
      (normVal (scaleCrit k cid options) c (scaleOpt k cid o) - b) ^ 2)
    (g := fun c => (colBest options c).map fun b =>
      (normVal options c o - b) ^ 2)
    (fun c _ => by
      simp only [scale_colBest options c k cid hk,
        scale_normVal options c k cid hk ho])]
  rw [mapM_option_congr
    (f := fun c => (colWorst (scaleCrit k cid options) c).map fun w =>
      (normVal (scaleCrit k cid options) c (scaleOpt k cid o) - w) ^ 2)
    (g := fun c => (colWorst options c).map fun w =>
      (normVal options c o - w) ^ 2)
    (fun c _ => by
      simp only [scale_colWorst options c k cid hk,
        scale_normVal options c k cid hk ho])]

/-! ## Claim C8 -/

/-- C8: for every benefit criterion and every positive constant `k`,
uniformly multiplying all options' raw values on that criterion by `k`
leaves the entire output of `run_topsis` — in particular the returned
order of option names — unchanged, because the column normalization
cancels the scale. -/
theorem claim_C8_scale_invariant_ranking (options : List Opt)
    (criteria : List Criterion) (c : Criterion) (k : ℝ) (hk : 0 < k)
    (hc : c ∈ criteria) (hb : c.ctype = CritType.benefit) :
    run_topsis (scaleCrit k c.id options) criteria = run_topsis options criteria ∧
    (run_topsis (scaleCrit k c.id options) criteria).map
        (fun out => out.1.map ScoreEntry.name) =
      (run_topsis options criteria).map (fun out => out.1.map ScoreEntry.name) := by
  have hmain : run_topsis (scaleCrit k c.id options) criteria =
      run_topsis options criteria := by
    unfold run_topsis
    rw [mapM_option_congr
      (f := fun cr => (colBest (scaleCrit k c.id options) cr).map fun b => (cr.id, b))
      (g := fun cr => (colBest options cr).map fun b => (cr.id, b))
      (fun cr _ => by simp only [scale_colBest options cr k c.id hk])]
    rw [mapM_option_congr
      (f := fun cr => (colWorst (scaleCrit k c.id options) cr).map fun w => (cr.id, w))
      (g := fun cr => (colWorst options cr).map fun w => (cr.id, w))
      (fun cr _ => by simp only [scale_colWorst options cr k c.id hk])]
    have hres : (scaleCrit k c.id options).mapM (fun o =>
        (scoreOf (scaleCrit k c.id options) criteria o).map fun s =>
          ScoreEntry.mk o.name s) =
        options.mapM fun o =>
          (scoreOf options criteria o).map fun s => ScoreEntry.mk o.name s := by
      unfold scaleCrit
      rw [mapM_option_map]
      apply mapM_option_congr
      intro o ho
      show Option.map (fun s => ScoreEntry.mk (scaleOpt k c.id o).name s)
          (scoreOf (scaleCrit k c.id options) criteria (scaleOpt k c.id o)) =
        Option.map (fun s => ScoreEntry.mk o.name s) (scoreOf options criteria o)
      rw [scale_scoreOf options criteria k c.id hk ho]
      rfl
    rw [show scaleCrit k c.id options = options.map (scaleOpt k c.id) from rfl] at hres ⊢
    rw [hres]
  exact ⟨hmain, by rw [hmain]⟩

theorem claim_C8_scale_invariant_ranking_witness :
    run_topsis (scaleCrit 2 exCrit0.id exOptions) exCriteria =
      run_topsis exOptions exCriteria :=
  (claim_C8_scale_invariant_ranking exOptions exCriteria exCrit0 2 (by norm_num)
    (by unfold exCriteria; simp) rfl).1

/-! ## Helper lemmas: differentiating criterion -/

lemma mapM_option_mem {α β : Type} {f : α → Option β} :
    ∀ {l : List α} {lb : List β}, l.mapM f = some lb →
      ∀ a ∈ l, ∃ b ∈ lb, f a = some b := by
  intro l
  induction l with
  | nil => intro lb _ a ha; exact absurd ha (List.not_mem_nil a)
  | cons x xs ih =>
    intro lb h a ha
    rw [List.mapM_cons] at h
    cases hfx : f x with
    | none => rw [hfx] at h; simp at h
    | some b =>
      rw [hfx] at h
      cases hxs : xs.mapM f with
      | none => rw [hxs] at h; simp at h
      | some bs =>
        rw [hxs] at h
        have h' : b :: bs = lb := Option.some_inj.mp (h : some (b :: bs) = some lb)
        subst h'
        rcases List.mem_cons.mp ha with rfl | ha'
        · exact ⟨b, List.mem_cons_self b bs, hfx⟩
        · rcases ih hxs a ha' with ⟨b', hb', hf⟩
          exact ⟨b', List.mem_cons_of_mem b hb', hf⟩

lemma mapM_option_mem_rev {α β : Type} {f : α → Option β} :
    ∀ {l : List α} {lb : List β}, l.mapM f = some lb →
      ∀ b ∈ lb, ∃ a ∈ l, f a = some b := by
  intro l
  induction l with
  | nil =>
    intro lb h b hb
    cases h
    exact absurd hb (List.not_mem_nil b)
  | cons x xs ih =>
    intro lb h b hb
    rw [List.mapM_cons] at h
    cases hfx : f x with
    | none => rw [hfx] at h; simp at h
    | some b0 =>
      rw [hfx] at h
      cases hxs : xs.mapM f with
      | none => rw [hxs] at h; simp at h
      | some bs =>
        rw [hxs] at h
        have h' : b0 :: bs = lb := Option.some_inj.mp (h : some (b0 :: bs) = some lb)
        subst h'
        rcases List.mem_cons.mp hb with rfl | hb'
        · exact ⟨x, List.mem_cons_self x xs, hfx⟩
        · rcases ih hxs b hb' with ⟨a, ha, hf⟩
          exact ⟨a, List.mem_cons_of_mem x ha, hf⟩

lemma filterDominant_sound {allExpl : List (String × List ExplEntry)}
    {others : List String} :
    ∀ {l d : List ExplEntry}, filterDominant allExpl others l = some d →
      (∀ e ∈ d, e ∈ l ∧ Dominates allExpl others e) ∧
      (∀ e ∈ l, Dominates allExpl others e → e ∈ d) := by
  intro l
  induction l with
  | nil =>
    intro d h
    cases h
    exact ⟨fun e he => absurd he (List.not_mem_nil e), fun e he _ => absurd he (List.not_mem_nil e)⟩
  | cons x xs ih =>
    intro d h
    rw [filterDominant] at h
    cases hgs : others.mapM (gapFor allExpl x.id) with
    | none => rw [hgs] at h; simp at h
    | some gs =>
      rw [hgs] at h
      cases hrest : filterDominant allExpl others xs with
      | none => rw [hrest] at h; simp at h
      | some rest =>
        rw [hrest] at h
        have h' : (if gs.all fun og => decide (x.gap_pct < og) then x :: rest else rest) = d :=
          Option.some_inj.mp
            (h : some (if gs.all fun og => decide (x.gap_pct < og) then x :: rest
              else rest) = some d)
        clear h
        rcases ih hrest with ⟨hsound, hcomplete⟩
        have hDomX : (gs.all fun og => decide (x.gap_pct < og)) = true ↔
            Dominates allExpl others x := by
          constructor
          · intro hall n hn g hg
            rcases mapM_option_mem hgs n hn with ⟨gv, hgv, hfg⟩
            rw [hfg] at hg
            have hgeq : gv = g := Option.some_inj.mp hg
            subst hgeq
            exact of_decide_eq_true (List.all_eq_true.mp hall gv hgv)
          · intro hdom
            apply List.all_eq_true.mpr
            intro g hg
            rcases mapM_option_mem_rev hgs g hg with ⟨n, hn, hfg⟩
            exact decide_eq_true (hdom n hn g hfg)
        by_cases hcase : (gs.all fun og => decide (x.gap_pct < og)) = true
        · rw [if_pos hcase] at h'
          subst h'
          constructor
          · intro e he
            rcases List.mem_cons.mp he with rfl | he'
            · exact ⟨List.mem_cons_self e xs, hDomX.mp hcase⟩
            · rcases hsound e he' with ⟨hmem, hdom⟩
              exact ⟨List.mem_cons_of_mem x hmem, hdom⟩
          · intro e he hdom
            rcases List.mem_cons.mp he with rfl | he'
            · exact List.mem_cons_self e rest
            · exact List.mem_cons_of_mem x (hcomplete e he' hdom)
        · rw [if_neg hcase] at h'
          subst h'
          constructor
          · intro e he
            rcases hsound e he with ⟨hmem, hdom⟩
            exact ⟨List.mem_cons_of_mem x hmem, hdom⟩
          · intro e he hdom
            rcases List.mem_cons.mp he with rfl | he'
            · exact absurd (hDomX.mpr hdom) hcase
            · exact hcomplete e he' hdom

lemma maxByWeight_spec {e : ExplEntry} {es : List ExplEntry} {m : ExplEntry}
    (h : maxByWeight (e :: es) = some m) :
    m ∈ e :: es ∧ ∀ x ∈ e :: es, x.weight ≤ m.weight := by
  have hfold : ∀ (es : List ExplEntry) (b : ExplEntry),
      (es.foldl (fun b x => if x.weight > b.weight then x else b) b) ∈ b :: es ∧
      b.weight ≤ (es.foldl (fun b x => if x.weight > b.weight then x else b) b).weight ∧
      ∀ x ∈ es, x.weight ≤
        (es.foldl (fun b x => if x.weight > b.weight then x else b) b).weight := by
    intro es
    induction es with
    | nil => exact fun b => ⟨List.mem_cons_self b [], le_refl _, fun x hx => absurd hx (List.not_mem_nil x)⟩
    | cons y ys ih =>
      intro b
      rw [List.foldl_cons]
      set b' := if y.weight > b.weight then y else b with hb'
      rcases ih b' with ⟨hmem, hble, hall⟩
      refine ⟨?_, ?_, ?_⟩
      · rcases List.mem_cons.mp hmem with hy | hys
        · rw [hy, hb']
          split
          · exact List.mem_cons_of_mem b (List.mem_cons_self y ys)
          · exact List.mem_cons_self b (y :: ys)
        · exact List.mem_cons_of_mem b (List.mem_cons_of_mem y hys)
      · refine le_trans ?_ hble
        rw [hb']
        split
        · rename_i hgt; exact le_of_lt hgt
        · exact le_refl _
      · intro x hx
        rcases List.mem_cons.mp hx with rfl | hx'
        · refine le_trans ?_ hble
          rw [hb']
          split
          · exact le_refl _
          · rename_i hngt; exact le_of_not_lt hngt
        · exact hall x hx'
  rw [maxByWeight] at h
  rcases Option.some_inj.mp h with rfl
  rcases hfold es e with ⟨hmem, hble, hall⟩
  refine ⟨hmem, ?_⟩
  intro x hx
  rcases List.mem_cons.mp hx with rfl | hx'
  · exact hble
  · exact hall x hx'

/-- Lexicographic comparison used by the fallback `min`. -/
lemma minByGapWeight_spec {e : ExplEntry} {es : List ExplEntry} {m : ExplEntry}
    (h : minByGapWeight (e :: es) = some m) :
    m ∈ e :: es ∧ ∀ x ∈ e :: es,
      m.gap_pct ≤ x.gap_pct ∧ (m.gap_pct = x.gap_pct → x.weight ≤ m.weight) := by
  have step : ∀ (b y : ExplEntry),
      (if y.gap_pct < b.gap_pct ∨ (y.gap_pct = b.gap_pct ∧ -y.weight < -b.weight)
        then y else b) = y ∨
      (if y.gap_pct < b.gap_pct ∨ (y.gap_pct = b.gap_pct ∧ -y.weight < -b.weight)
        then y else b) = b := by
    intro b y; split <;> simp
  have lexle : ∀ (b y : ExplEntry),
      (let r := if y.gap_pct < b.gap_pct ∨ (y.gap_pct = b.gap_pct ∧ -y.weight < -b.weight)
        then y else b
      (r.gap_pct ≤ b.gap_pct ∧ (r.gap_pct = b.gap_pct → b.weight ≤ r.weight)) ∧
      (r.gap_pct ≤ y.gap_pct ∧ (r.gap_pct = y.gap_pct → y.weight ≤ r.weight))) := by
    intro b y
    by_cases hcond : y.gap_pct < b.gap_pct ∨ (y.gap_pct = b.gap_pct ∧ -y.weight < -b.weight)
    · simp only [if_pos hcond]
      rcases hcond with hlt | ⟨heq, hw⟩
      · exact ⟨⟨le_of_lt hlt, fun hh => absurd hh (ne_of_lt hlt)⟩,
          ⟨le_refl _, fun _ => le_refl _⟩⟩
      · exact ⟨⟨le_of_eq heq, fun _ => le_of_lt (by linarith)⟩,
          ⟨le_refl _, fun _ => le_refl _⟩⟩
    · simp only [if_neg hcond]
      push_neg at hcond
      rcases hcond with ⟨hge, himp⟩
      constructor
      · exact ⟨le_refl _, fun _ => le_refl _⟩
      · constructor
        · exact hge
        · intro heq
          have := himp heq.symm
          linarith
  have hfold : ∀ (es : List ExplEntry) (b : ExplEntry),
      (es.foldl (fun b x =>
        if x.gap_pct < b.gap_pct ∨ (x.gap_pct = b.gap_pct ∧ -x.weight < -b.weight)
        then x else b) b) ∈ b :: es ∧
      ∀ x ∈ b :: es,
        (es.foldl (fun b x =>
          if x.gap_pct < b.gap_pct ∨ (x.gap_pct = b.gap_pct ∧ -x.weight < -b.weight)
          then x else b) b).gap_pct ≤ x.gap_pct ∧
        ((es.foldl (fun b x =>
          if x.gap_pct < b.gap_pct ∨ (x.gap_pct = b.gap_pct ∧ -x.weight < -b.weight)
          then x else b) b).gap_pct = x.gap_pct → x.weight ≤
            (es.foldl (fun b x =>
              if x.gap_pct < b.gap_pct ∨ (x.gap_pct = b.gap_pct ∧ -x.weight < -b.weight)
              then x else b) b).weight) := by
    intro es
    induction es with
    | nil =>
      intro b
      refine ⟨List.mem_cons_self b [], ?_⟩
      intro x hx
      rcases List.mem_cons.mp hx with rfl | hx'
      · exact ⟨le_refl _, fun _ => le_refl _⟩
      · exact absurd hx' (List.not_mem_nil x)
    | cons y ys ih =>
      intro b
      rw [List.foldl_cons]
      set b' := if y.gap_pct < b.gap_pct ∨ (y.gap_pct = b.gap_pct ∧ -y.weight < -b.weight)
        then y else b with hb'
      rcases ih b' with ⟨hmem, hall⟩
      have hstep := lexle b y
      simp only [← hb'] at hstep
      have hb'le : (b'.gap_pct ≤ b.gap_pct ∧ (b'.gap_pct = b.gap_pct → b.weight ≤ b'.weight)) ∧
          (b'.gap_pct ≤ y.gap_pct ∧ (b'.gap_pct = y.gap_pct → y.weight ≤ b'.weight)) := hstep
      have hrb' := hall b' (List.mem_cons_self b' ys)
      refine ⟨?_, ?_⟩
      · rcases List.mem_cons.mp hmem with hy | hys
        · rw [hy, hb']
          split
          · exact List.mem_cons_of_mem b (List.mem_cons_self y ys)
          · exact List.mem_cons_self b (y :: ys)
        · exact List.mem_cons_of_mem b (List.mem_cons_of_mem y hys)
      · intro x hx
        rcases List.mem_cons.mp hx with rfl | hx'
        · constructor
          · exact le_trans hrb'.1 hb'le.1.1
          · intro heq
            have h1 : b'.gap_pct = x.gap_pct := le_antisymm hb'le.1.1 (heq ▸ hrb'.1)
            exact le_trans (hb'le.1.2 h1) (hrb'.2 (heq ▸ h1 ▸ rfl))
        · rcases List.mem_cons.mp hx' with rfl | hx''
          · constructor
            · exact le_trans hrb'.1 hb'le.2.1
            · intro heq
              have h1 : b'.gap_pct = x.gap_pct := le_antisymm hb'le.2.1 (heq ▸ hrb'.1)
              exact le_trans (hb'le.2.2 h1) (hrb'.2 (by rw [heq, h1]))
          · exact hall x (List.mem_cons_of_mem b' hx'')
  rw [minByGapWeight] at h
  rcases Option.some_inj.mp h with rfl
  rcases hfold es e with ⟨hmem, hall⟩
  refine ⟨hmem, ?_⟩
  intro x hx
  rcases List.mem_cons.mp hx with heq | hx'
  · exact heq ▸ hall e (List.mem_cons_self e es)
  · exact hall x (List.mem_cons_of_mem e hx')

/-! ## Claim C9 -/

/-- C9: whenever `find_differentiating_crit` returns an entry, that
entry comes from the target's explanation list and satisfies the
documented rule: if some criterion strictly dominates (the target's gap
is strictly smaller than every other option's gap on it), the returned
entry is a dominating criterion of maximal weight; otherwise it is the
target's own lowest-gap criterion, ties broken by highest weight. -/
theorem claim_C9_differentiating_criterion (winner_name : String)
    (winner_expl : List ExplEntry) (allExpl : List (String × List ExplEntry))
    (original_options : List Opt) (e : ExplEntry)
    (h : find_differentiating_crit winner_name winner_expl allExpl
      original_options = some e) :
    ((∃ d ∈ winner_expl, Dominates allExpl
        ((original_options.filter fun o => o.name != winner_name).map Opt.name) d) →
      e ∈ winner_expl ∧
      Dominates allExpl
        ((original_options.filter fun o => o.name != winner_name).map Opt.name) e ∧
      ∀ d ∈ winner_expl, Dominates allExpl
        ((original_options.filter fun o => o.name != winner_name).map Opt.name) d →
          d.weight ≤ e.weight) ∧
    ((¬ ∃ d ∈ winner_expl, Dominates allExpl
        ((original_options.filter fun o => o.name != winner_name).map Opt.name) d) →
      e ∈ winner_expl ∧ ∀ x ∈ winner_expl,
        e.gap_pct ≤ x.gap_pct ∧ (e.gap_pct = x.gap_pct → x.weight ≤ e.weight)) := by
  unfold find_differentiating_crit at h
  cases hdl : filterDominant allExpl
      ((original_options.filter fun o => o.name != winner_name).map Opt.name)
      winner_expl with
  | none => simp only [hdl] at h; simp at h
  | some dl =>
    simp only [hdl] at h
    have h2 : (if dl.isEmpty then minByGapWeight winner_expl else maxByWeight dl)
        = some e := h
    rcases filterDominant_sound hdl with ⟨hsound, hcomplete⟩
    cases dl with
    | nil =>
      replace h2 : minByGapWeight winner_expl = some e := h2
      cases winner_expl with
      | nil => rw [minByGapWeight] at h2; simp at h2
      | cons w ws =>
        rcases minByGapWeight_spec h2 with ⟨hmem, hall⟩
        constructor
        · rintro ⟨d, hd, hdom⟩
          exact absurd (hcomplete d hd hdom) (List.not_mem_nil d)
        · intro _
          exact ⟨hmem, hall⟩
    | cons d ds =>
      replace h2 : maxByWeight (d :: ds) = some e := h2
      rcases maxByWeight_spec h2 with ⟨hmem, hall⟩
      have hed := hsound e hmem
      constructor
      · intro _
        refine ⟨hed.1, hed.2, ?_⟩
        intro d' hd' hdom'
        exact hall d' (hcomplete d' hd' hdom')
      · intro hno
        exact absurd ⟨d, (hsound d (List.mem_cons_self d ds)).1,
          (hsound d (List.mem_cons_self d ds)).2⟩ hno

lemma filterDominant_cons_eval {allExpl : List (String × List ExplEntry)}
    {others : List String} {e : ExplEntry} {es : List ExplEntry}
    {gs : List ℝ} {rest : List ExplEntry}
    (hgs : others.mapM (gapFor allExpl e.id) = some gs)
    (hrest : filterDominant allExpl others es = some rest) :
    filterDominant allExpl others (e :: es) =
      some (if gs.all fun og => decide (e.gap_pct < og) then e :: rest else rest) := by
  rw [filterDominant, hgs]
  show (filterDominant allExpl others es).bind
    (fun rest => some (if gs.all fun og => decide (e.gap_pct < og)
      then e :: rest else rest)) = _
  rw [hrest]
  rfl

lemma wit_fdQ : filterDominant wAllExpl ["X"] [wEntryQ] = some [] := by
  have h := @filterDominant_cons_eval wAllExpl ["X"] wEntryQ [] [(5 : ℝ)] [] rfl rfl
  rw [h]
  rw [show (([(5 : ℝ)].all fun og => decide (wEntryQ.gap_pct < og))) = false from by
    simp only [List.all_cons, List.all_nil, Bool.and_true, decide_eq_false_iff_not]
    show ¬ ((20 : ℝ) < 5)
    norm_num]
  rfl

lemma wit_fdP : filterDominant wAllExpl ["X"] [wEntryP, wEntryQ] = some [wEntryP] := by
  have h := @filterDominant_cons_eval wAllExpl ["X"] wEntryP [wEntryQ] [(50 : ℝ)] []
    rfl wit_fdQ
  rw [h]
  rw [show (([(50 : ℝ)].all fun og => decide (wEntryP.gap_pct < og))) = true from by
    simp only [List.all_cons, List.all_nil, Bool.and_true, decide_eq_true_eq]
    show (10 : ℝ) < 50
    norm_num]
  rfl

lemma wit_find : find_differentiating_crit "W" [wEntryP, wEntryQ] wAllExpl wOptions
    = some wEntryP := by
  show (filterDominant wAllExpl ["X"] [wEntryP, wEntryQ]).bind
    (fun dl => if dl.isEmpty then minByGapWeight [wEntryP, wEntryQ]
      else maxByWeight dl) = some wEntryP
  rw [wit_fdP]
  rfl

theorem claim_C9_differentiating_criterion_witness :
    wEntryP ∈ [wEntryP, wEntryQ] ∧
    Dominates wAllExpl ((wOptions.filter fun o => o.name != "W").map Opt.name) wEntryP ∧
    ∀ d ∈ [wEntryP, wEntryQ],
      Dominates wAllExpl ((wOptions.filter fun o => o.name != "W").map Opt.name) d →
        d.weight ≤ wEntryP.weight := by
  have hdom : Dominates wAllExpl
      ((wOptions.filter fun o => o.name != "W").map Opt.name) wEntryP := by
    intro n hn g hg
    have hn' : n = "X" := by
      rw [show (wOptions.filter fun o => o.name != "W").map Opt.name = ["X"] from rfl]
        at hn
      simpa using hn
    subst hn'
    have hg' : some (50 : ℝ) = some g := by
      rw [show gapFor wAllExpl wEntryP.id "X" = some 50 from rfl] at hg
      exact hg
    rw [show wEntryP.gap_pct = (10 : ℝ) from rfl, ← Option.some_inj.mp hg']
    norm_num
  exact (claim_C9_differentiating_criterion "W" [wEntryP, wEntryQ] wAllExpl wOptions
    wEntryP wit_find).1 ⟨wEntryP, List.mem_cons_self wEntryP [wEntryQ], hdom⟩

/-! ## Helper lemmas: simulator perturbation structure -/

lemma perturbVals_snd (g : ℕ → ℝ) :
    ∀ (criteria : List Criterion) (vals : ℕ → ℝ) (pos : ℕ),
      (perturbVals g criteria vals pos).2 = pos + dynCount criteria
  | [], vals, pos => by simp [perturbVals, dynCount]
  | c :: cs, vals, pos => by
    rw [perturbVals]
    by_cases hd : c.dynamic = true
    · rw [if_pos hd, perturbVals_snd g cs _ (pos + 1)]
      simp only [dynCount, List.filter_cons, hd, if_pos, List.length_cons]
      omega
    · rw [if_neg hd, perturbVals_snd g cs vals pos]
      simp only [dynCount, List.filter_cons]
      rw [if_neg hd]

lemma perturbVals_untouched (g : ℕ → ℝ) :
    ∀ (criteria : List Criterion) (vals : ℕ → ℝ) (pos : ℕ) (cid : ℕ),
      (∀ c ∈ criteria, c.dynamic = true → c.id ≠ cid) →
      (perturbVals g criteria vals pos).1 cid = vals cid
  | [], vals, pos, cid, _ => rfl
  | c :: cs, vals, pos, cid, h => by
    rw [perturbVals]
    by_cases hd : c.dynamic = true
    · rw [if_pos hd]
      rw [perturbVals_untouched g cs _ (pos + 1) cid
        (fun c' hc' => h c' (List.mem_cons_of_mem c hc'))]
      have hne : c.id ≠ cid := h c (List.mem_cons_self c cs) hd
      exact if_neg fun heq => hne heq.symm
    · rw [if_neg hd]
      exact perturbVals_untouched g cs vals pos cid
        (fun c' hc' => h c' (List.mem_cons_of_mem c hc'))

lemma perturbVals_dynamic (g : ℕ → ℝ) :
    ∀ (criteria : List Criterion) (vals : ℕ → ℝ) (pos : ℕ) (j : ℕ)
      (hj : j < criteria.length),
      (criteria.map Criterion.id).Nodup →
      (criteria[j]).dynamic = true →
      (perturbVals g criteria vals pos).1 ((criteria[j]).id) =
        clamp19 (vals ((criteria[j]).id) + g (pos + dynCount (criteria.take j)))
  | [], _, _, j, hj, _, _ => absurd hj (by simp)
  | c :: cs, vals, pos, 0, hj, hnd, hdyn => by
    have hd : c.dynamic = true := hdyn
    rw [perturbVals, if_pos hd]
    have hnotin : ∀ c' ∈ cs, c'.dynamic = true → c'.id ≠ c.id := by
      intro c' hc' _ heq
      have : c.id ∉ cs.map Criterion.id := by
        rw [List.map_cons] at hnd
        exact (List.nodup_cons.mp hnd).1
      exact this (heq ▸ List.mem_map.mpr ⟨c', hc', rfl⟩)
    simp only [List.getElem_cons_zero, List.take_zero, dynCount, List.filter_nil,
      List.length_nil, Nat.add_zero]
    rw [perturbVals_untouched g cs _ (pos + 1) c.id hnotin]
    exact if_pos rfl
  | c :: cs, vals, pos, j + 1, hj, hnd, hdyn => by
    have hjcs : j < cs.length := by simpa using hj
    have hndcs : (cs.map Criterion.id).Nodup := by
      rw [List.map_cons] at hnd
      exact (List.nodup_cons.mp hnd).2
    have hel : (c :: cs)[j + 1] = cs[j] := List.getElem_cons_succ c cs j hj
    have hdyncs : (cs[j]).dynamic = true := by rw [← hel]; exact hdyn
    have hcne : c.id ≠ (cs[j]).id := by
      intro heq
      have : c.id ∉ cs.map Criterion.id := by
        rw [List.map_cons] at hnd
        exact (List.nodup_cons.mp hnd).1
      exact this (heq ▸ List.mem_map.mpr ⟨cs[j], cs.getElem_mem hjcs, rfl⟩)
    rw [perturbVals]
    by_cases hd : c.dynamic = true
    · rw [if_pos hd]
      rw [hel]
      rw [perturbVals_dynamic g cs _ (pos + 1) j hjcs hndcs hdyncs]
      rw [if_neg (show ¬ ((cs[j]).id = c.id) from fun heq => hcne heq.symm)]
      have hidx : pos + 1 + dynCount (List.take j cs) =
          pos + dynCount (List.take (j + 1) (c :: cs)) := by
        simp only [List.take_succ_cons, dynCount, List.filter_cons, hd, if_pos,
          List.length_cons]
        omega
      rw [hidx]
    · rw [if_neg hd]
      rw [hel]
      rw [perturbVals_dynamic g cs vals pos j hjcs hndcs hdyncs]
      have hidx : pos + dynCount (List.take j cs) =
          pos + dynCount (List.take (j + 1) (c :: cs)) := by
        simp only [List.take_succ_cons, dynCount, List.filter_cons]
        rw [if_neg hd]
      rw [hidx]

lemma buildSim_length (g : ℕ → ℝ) (criteria : List Criterion) :
    ∀ (options : List Opt) (pos : ℕ),
      (buildSim g criteria options pos).1.length = options.length
  | [], pos => rfl
  | o :: os, pos => by
    rw [buildSim]
    simp only [List.length_cons]
    rw [buildSim_length g criteria os _]

lemma buildSim_snd (g : ℕ → ℝ) (criteria : List Criterion) :
    ∀ (options : List Opt) (pos : ℕ),
      (buildSim g criteria options pos).2 =
        pos + options.length * dynCount criteria
  | [], pos => by simp [buildSim]
  | o :: os, pos => by
    rw [buildSim]
    simp only
    rw [buildSim_snd g criteria os _, perturbVals_snd]
    simp only [List.length_cons]
    rw [Nat.succ_mul]
    omega

lemma buildSim_get (g : ℕ → ℝ) (criteria : List Criterion)
    (hnd : (criteria.map Criterion.id).Nodup) :
    ∀ (options : List Opt) (pos : ℕ) (i : ℕ), i < options.length →
      ((buildSim g criteria options pos).1.getD i defaultOpt).name =
        (options.getD i defaultOpt).name ∧
      (∀ j, j < criteria.length → ((criteria.getD j defaultCrit).dynamic = true) →
        ((buildSim g criteria options pos).1.getD i defaultOpt).values
            ((criteria.getD j defaultCrit).id) =
          clamp19 ((options.getD i defaultOpt).values ((criteria.getD j defaultCrit).id) +
            g (pos + i * dynCount criteria + dynCount (criteria.take j)))) ∧
      (∀ cid, (∀ c ∈ criteria, c.dynamic = true → c.id ≠ cid) →
        ((buildSim g criteria options pos).1.getD i defaultOpt).values cid =
          (options.getD i defaultOpt).values cid)
  | o :: os, pos, 0, hi => by
    refine ⟨rfl, ?_, ?_⟩
    · intro j hj hdyn
      show (perturbVals g criteria o.values pos).1 ((criteria.getD j defaultCrit).id) = _
      rw [List.getD_eq_getElem criteria defaultCrit hj] at hdyn ⊢
      rw [perturbVals_dynamic g criteria o.values pos j hj hnd hdyn]
      simp
    · intro cid hcid
      show (perturbVals g criteria o.values pos).1 cid = _
      rw [perturbVals_untouched g criteria o.values pos cid hcid]
      rfl
  | o :: os, pos, i + 1, hi => by
    have hios : i < os.length := by simpa using hi
    have hstep := buildSim_get g criteria hnd os
      ((perturbVals g criteria o.values pos).2) i hios
    have hel : (buildSim g criteria (o :: os) pos).1.getD (i + 1) defaultOpt =
        (buildSim g criteria os ((perturbVals g criteria o.values pos).2)).1.getD i
          defaultOpt := by
      show (Opt.mk o.name (perturbVals g criteria o.values pos).1 ::
        (buildSim g criteria os ((perturbVals g criteria o.values pos).2)).1).getD
          (i + 1) defaultOpt = _
      rw [List.getD_cons_succ]
    have hos : (o :: os).getD (i + 1) defaultOpt = os.getD i defaultOpt :=
      List.getD_cons_succ
    rcases hstep with ⟨hname, hdyn, huntouched⟩
    refine ⟨?_, ?_, ?_⟩
    · rw [hel, hos, hname]
    · intro j hj hdynj
      rw [hel, hos]
      rw [hdyn j hj hdynj]
      rw [perturbVals_snd]
      have harith : pos + dynCount criteria + i * dynCount criteria +
          dynCount (criteria.take j) =
          pos + (i + 1) * dynCount criteria + dynCount (criteria.take j) := by
        rw [Nat.succ_mul]
        omega
      rw [harith]
    · intro cid hcid
      rw [hel, hos]
      exact huntouched cid hcid

/-! ## Claim C1 -/

/-- C1 (amended): per simulation iteration there is no shared
per-criterion shock: each option's value on each dynamic criterion is
perturbed by exactly one Gaussian sample of its own — the snapshot
consumes one sample per (option, dynamic criterion) pair in option-major
order, the perturbed value is `clamp19 (old + sample)`, and values of
non-dynamic criteria are left untouched. -/
theorem claim_C1_per_option_perturbation (g : ℕ → ℝ) (criteria : List Criterion)
    (options : List Opt) (pos : ℕ)
    (hnd : (criteria.map Criterion.id).Nodup) :
    (buildSim g criteria options pos).2 = pos + options.length * dynCount criteria ∧
    (buildSim g criteria options pos).1.length = options.length ∧
    ∀ i, i < options.length →
      ((buildSim g criteria options pos).1.getD i defaultOpt).name =
        (options.getD i defaultOpt).name ∧
      (∀ j, j < criteria.length → ((criteria.getD j defaultCrit).dynamic = true) →
        ((buildSim g criteria options pos).1.getD i defaultOpt).values
            ((criteria.getD j defaultCrit).id) =
          clamp19 ((options.getD i defaultOpt).values ((criteria.getD j defaultCrit).id) +
            g (pos + i * dynCount criteria + dynCount (criteria.take j)))) ∧
      (∀ cid, (∀ c ∈ criteria, c.dynamic = true → c.id ≠ cid) →
        ((buildSim g criteria options pos).1.getD i defaultOpt).values cid =
          (options.getD i defaultOpt).values cid) :=
  ⟨buildSim_snd g criteria options pos, buildSim_length g criteria options pos,
   fun i hi => buildSim_get g criteria hnd options pos i hi⟩

theorem claim_C1_per_option_perturbation_witness :
    (buildSim cg cCrit cOpts 0).2 = 0 + cOpts.length * dynCount cCrit :=
  (claim_C1_per_option_perturbation cg cCrit cOpts 0 (by decide)).1

/-- C1 (counterexample): the source's iteration snapshot is *not* the
spec's shared-then-individual perturbation — on two options with one
dynamic criterion and the sample stream `1, 2, 3, ...`, the first
option's perturbed value is `clamp19 (5 + 1) = 6` in the source but
`clamp19 (5 + (1 + 2)) = 8` under the spec's structure. -/
theorem claim_C1_counterexample :
    ¬ buildSim cg cCrit cOpts 0 = buildSimSpec cg cCrit cOpts 0 := by
  intro h
  have h0 := congrArg (fun p : List Opt × ℕ => (p.1.getD 0 defaultOpt).values 0) h
  have hL : (fun p : List Opt × ℕ => (p.1.getD 0 defaultOpt).values 0)
      (buildSim cg cCrit cOpts 0) = clamp19 (5 + cg 0) := rfl
  have hR : (fun p : List Opt × ℕ => (p.1.getD 0 defaultOpt).values 0)
      (buildSimSpec cg cCrit cOpts 0) = clamp19 (5 + (cg 0 + cg 1)) := rfl
  rw [hL, hR] at h0
  have hL6 : clamp19 (5 + cg 0) = 6 := by
    have hv : (5 : ℝ) + cg 0 = 6 := by unfold cg; norm_num
    rw [clamp19, hv, min_eq_right (by norm_num : (6 : ℝ) ≤ 9),
      max_eq_right (by norm_num : (1 : ℝ) ≤ 6)]
  have hR8 : clamp19 (5 + (cg 0 + cg 1)) = 8 := by
    have hv : (5 : ℝ) + (cg 0 + cg 1) = 8 := by unfold cg; norm_num
    rw [clamp19, hv, min_eq_right (by norm_num : (8 : ℝ) ≤ 9),
      max_eq_right (by norm_num : (1 : ℝ) ≤ 8)]
  rw [hL6, hR8] at h0
  norm_num at h0

/-! ## Claim C2 -/

lemma run_topsis_nil_cons (c : Criterion) (cs : List Criterion) :
    run_topsis [] (c :: cs) = none := by
  unfold run_topsis
  rw [List.mapM_cons]
  rw [show colBest [] c = none from by unfold colBest normColumn; cases c.ctype <;> rfl]
  rfl

lemma simLoop_nil_cons (c : Criterion) (cs : List Criterion) (g : ℕ → ℝ)
    (m pos : ℕ) (counts : List (String × ℕ)) :
    simLoop [] (c :: cs) g (m + 1) pos counts = none := by
  cases h : simLoop [] (c :: cs) g (m + 1) pos counts with
  | none => rfl
  | some r =>
    exfalso
    unfold simLoop at h
    simp only [Option.pure_def, Option.bind_eq_bind, Option.bind_eq_some] at h
    rcases h with ⟨res, hres, _⟩
    rw [show (buildSim g (c :: cs) [] pos).1 = [] from rfl] at hres
    rw [run_topsis_nil_cons] at hres
    cases hres

lemma simulate_nil_cons (c : Criterion) (cs : List Criterion) (g : ℕ → ℝ) :
    simulate [] (c :: cs) g = none := by
  cases h : simulate [] (c :: cs) g with
  | none => rfl
  | some r =>
    exfalso
    unfold simulate at h
    simp only [Option.pure_def, Option.bind_eq_bind, Option.bind_eq_some] at h
    rcases h with ⟨lc, hlc, _⟩
    rw [show (300 : ℕ) = 299 + 1 from rfl] at hlc
    rw [simLoop_nil_cons] at hlc
    cases hlc

/-- C2 (amended): the boundary performs no input validation and has no
`try`/`except`: a request with an empty options list is not rejected
with an error payload — the engine raises an uncaught exception inside
the scorer and no response at all is produced; a request missing the
`criteria` key dies on the dict access the same way. -/
theorem claim_C2_no_boundary_error_handling (g : ℕ → ℝ) :
    analyze emptyOptionsInput g = none ∧
    analyze missingCriteriaInput g = none := by
  constructor
  · cases h : analyze emptyOptionsInput g with
    | none => rfl
    | some out =>
      exfalso
      unfold analyze at h
      simp only [emptyOptionsInput, cdC, List.enum, List.enumFrom, List.map_cons,
        List.map_nil, Option.pure_def, Option.bind_eq_bind, Option.some_bind,
        Option.bind_eq_some] at h
      rcases h with ⟨sim, hsim, _⟩
      rw [simulate_nil_cons] at hsim
      cases hsim
  · rfl

/-- C2 (counterexample): at the concrete empty-options request and the
all-zeros sample stream, `analyze` does not return any response — a
crash, not a descriptive-error rejection. -/
theorem claim_C2_counterexample :
    analyze emptyOptionsInput zeroStream = none ∧
    analyze missingCriteriaInput zeroStream = none :=
  claim_C2_no_boundary_error_handling zeroStream

/-! ## Claim C3: frame lemmas for the store model -/

lemma readDict_append {st : Store} {d : ℕ → ℝ} {r : ℕ} (h : r < st.length) :
    readDict (st ++ [d]) r = readDict st r := by
  unfold readDict
  rw [List.getD_eq_getElem?_getD, List.getD_eq_getElem?_getD,
    List.getElem?_append, if_pos h]

lemma readDict_set_ne {st : Store} {i r : ℕ} {f : ℕ → ℝ} (h : r ≠ i) :
    readDict (st.set i f) r = readDict st r := by
  unfold readDict
  rw [List.getD_eq_getElem?_getD, List.getD_eq_getElem?_getD,
    List.getElem?_set_ne fun he => h he.symm]

lemma writeVal_length (st : Store) (r cid : ℕ) (x : ℝ) :
    (writeVal st r cid x).length = st.length := by
  unfold writeVal
  exact List.length_set st r _

lemma perturbStore_length (g : ℕ → ℝ) (r : ℕ) :
    ∀ (criteria : List Criterion) (st : Store) (pos : ℕ),
      (perturbStore g r criteria st pos).1.length = st.length
  | [], st, pos => rfl
  | c :: cs, st, pos => by
    rw [perturbStore]
    by_cases hd : c.dynamic = true
    · rw [if_pos hd, perturbStore_length g r cs _ _, writeVal_length]
    · rw [if_neg hd, perturbStore_length g r cs st pos]

lemma perturbStore_frame (g : ℕ → ℝ) (r : ℕ) {r' : ℕ} (hne : r' ≠ r) :
    ∀ (criteria : List Criterion) (st : Store) (pos : ℕ),
      readDict (perturbStore g r criteria st pos).1 r' = readDict st r'
  | [], st, pos => rfl
  | c :: cs, st, pos => by
    rw [perturbStore]
    by_cases hd : c.dynamic = true
    · rw [if_pos hd, perturbStore_frame g r hne cs _ _]
      unfold writeVal
      exact readDict_set_ne hne
    · rw [if_neg hd, perturbStore_frame g r hne cs st pos]

lemma buildSimStore_length_ge (g : ℕ → ℝ) (criteria : List Criterion) :
    ∀ (options : List OptRef) (st : Store) (pos : ℕ),
      st.length ≤ (buildSimStore g criteria options st pos).2.1.length
  | [], st, pos => le_refl _
  | o :: os, st, pos => by
    rw [buildSimStore]
    simp only
    refine le_trans ?_ (buildSimStore_length_ge g criteria os _ _)
    rw [perturbStore_length]
    unfold copyDict
    simp

lemma buildSimStore_frame (g : ℕ → ℝ) (criteria : List Criterion) {r : ℕ} :
    ∀ (options : List OptRef) (st : Store) (pos : ℕ), r < st.length →
      readDict (buildSimStore g criteria options st pos).2.1 r = readDict st r
  | [], st, pos, _ => rfl
  | o :: os, st, pos, hr => by
    rw [buildSimStore]
    simp only
    have hlen : r < (perturbStore g (copyDict st o.ref).2 criteria
        (copyDict st o.ref).1 pos).1.length := by
      rw [perturbStore_length]
      unfold copyDict
      simp only [List.length_append, List.length_cons, List.length_nil]
      omega
    rw [buildSimStore_frame g criteria os _ _ hlen]
    have hfresh : r ≠ (copyDict st o.ref).2 := by
      unfold copyDict
      simp only
      omega
    rw [perturbStore_frame g _ hfresh]
    unfold copyDict
    simp only
    exact readDict_append hr

lemma simLoopStore_frame (options : List OptRef) (criteria : List Criterion)
    (g : ℕ → ℝ) {r : ℕ} :
    ∀ (m : ℕ) (st : Store) (pos : ℕ) (counts : List (String × ℕ))
      (out : List (String × ℕ) × Store × ℕ), r < st.length →
      simLoopStore options criteria g m st pos counts = some out →
      readDict out.2.1 r = readDict st r
  | 0, st, pos, counts, out, hr, h => by
    cases Option.some_inj.mp h
    rfl
  | m + 1, st, pos, counts, out, hr, h => by
    unfold simLoopStore at h
    simp only [Option.pure_def, Option.bind_eq_bind, Option.bind_eq_some] at h
    rcases h with ⟨res, _, top, _, counts', _, hrec⟩
    have hr' : r < (buildSimStore g criteria options st pos).2.1.length :=
      lt_of_lt_of_le hr (buildSimStore_length_ge g criteria options st pos)
    rw [simLoopStore_frame options criteria g m _ _ counts' out hr' hrec]
    exact buildSimStore_frame g criteria options st pos hr

/-- C3 (amended): `simulate` does not mutate the caller's option dicts:
the per-iteration working dict is a fresh `.copy()` of each option's
values (line 123), all writes go to the copies, and after the call every
dict the caller passed in is unchanged in the store. -/
theorem claim_C3_simulate_never_mutates_caller (options : List OptRef)
    (criteria : List Criterion) (g : ℕ → ℝ) (st : Store) (r : ℕ)
    (hr : r < st.length) (out : List SimResult × Store)
    (hrun : simulateStore options criteria g st = some out) :
    readDict out.2 r = readDict st r := by
  unfold simulateStore at hrun
  simp only [Option.pure_def, Option.bind_eq_bind, Option.bind_eq_some] at hrun
  rcases hrun with ⟨lsp, hlsp, hout⟩
  have := simLoopStore_frame options criteria g 300 st 0 (initCountsRef options)
    lsp hr hlsp
  rw [← Option.some_inj.mp hout]
  exact this

lemma sortDesc_singleton {α β : Type} [LinearOrder β] (key : α → β) (x : α) :
    sortDesc key [x] = [x] := rfl

lemma simLoopStore_succ (options : List OptRef) (criteria : List Criterion)
    (g : ℕ → ℝ) (m : ℕ) (st : Store) (pos : ℕ) (counts : List (String × ℕ))
    (res : List ScoreEntry × List (ℕ × ℝ) × List (ℕ × ℝ)) (top : ScoreEntry)
    (counts' : List (String × ℕ))
    (hrt : run_topsis (materialize (buildSimStore g criteria options st pos).2.1
      (buildSimStore g criteria options st pos).1) criteria = some res)
    (htop : res.1.head? = some top)
    (hbump : bump counts top.name = some counts') :
    simLoopStore options criteria g (m + 1) st pos counts =
      simLoopStore options criteria g m (buildSimStore g criteria options st pos).2.1
        (buildSimStore g criteria options st pos).2.2 counts' := by
  conv_lhs => rw [simLoopStore]
  rw [hrt]
  simp only [Option.pure_def, Option.bind_eq_bind, Option.some_bind]
  rw [htop]
  simp only [Option.some_bind]
  rw [hbump]
  simp only [Option.some_bind]

lemma buildSimStore_single_fst (g : ℕ → ℝ) (criteria : List Criterion)
    (st : Store) (pos : ℕ) :
    (buildSimStore g criteria [OptRef.mk "a" 0] st pos).1 =
      [OptRef.mk "a" st.length] := rfl

lemma simLoopStore_single (criteria : List Criterion) (g : ℕ → ℝ) :
    ∀ (m : ℕ) (st : Store) (pos k : ℕ),
      ∃ st' pos', simLoopStore [OptRef.mk "a" 0] criteria g m st pos [("a", k)] =
        some ([("a", k + m)], st', pos')
  | 0, st, pos, k => ⟨st, pos, by rw [Nat.add_zero]; rfl⟩
  | m + 1, st, pos, k => by
    have hmat : materialize (buildSimStore g criteria [OptRef.mk "a" 0] st pos).2.1
        (buildSimStore g criteria [OptRef.mk "a" 0] st pos).1 =
        [Opt.mk "a" (readDict
          (buildSimStore g criteria [OptRef.mk "a" 0] st pos).2.1 st.length)] := by
      rw [buildSimStore_single_fst]
      rfl
    have hne : materialize (buildSimStore g criteria [OptRef.mk "a" 0] st pos).2.1
        (buildSimStore g criteria [OptRef.mk "a" 0] st pos).1 ≠ [] := by
      rw [hmat]
      simp
    have hrt := @run_topsis_eq_some _ criteria hne
    have htop : (sortDesc ScoreEntry.score
        ((materialize (buildSimStore g criteria [OptRef.mk "a" 0] st pos).2.1
          (buildSimStore g criteria [OptRef.mk "a" 0] st pos).1).map fun o =>
            ScoreEntry.mk o.name (scoreVal
              (materialize (buildSimStore g criteria [OptRef.mk "a" 0] st pos).2.1
                (buildSimStore g criteria [OptRef.mk "a" 0] st pos).1) criteria o))).head?
        = some (ScoreEntry.mk "a" (scoreVal
            (materialize (buildSimStore g criteria [OptRef.mk "a" 0] st pos).2.1
              (buildSimStore g criteria [OptRef.mk "a" 0] st pos).1) criteria
            (Opt.mk "a" (readDict
              (buildSimStore g criteria [OptRef.mk "a" 0] st pos).2.1 st.length)))) := by
      rw [hmat]
      rfl
    rcases simLoopStore_single criteria g m
      (buildSimStore g criteria [OptRef.mk "a" 0] st pos).2.1
      (buildSimStore g criteria [OptRef.mk "a" 0] st pos).2.2 (k + 1) with ⟨st', pos', hrec⟩
    refine ⟨st', pos', ?_⟩
    rw [simLoopStore_succ [OptRef.mk "a" 0] criteria g m st pos [("a", k)] _ _
      [("a", k + 1)] hrt htop rfl]
    rw [hrec]
    rw [show k + 1 + m = k + (m + 1) from by omega]

/-- C3 (counterexample): on a concrete single-option input backed by an
explicit store, `simulate` completes and the caller's values dict at its
original reference is exactly what was passed in — the values do not
differ after the call, because each iteration perturbs a fresh copy. -/
theorem claim_C3_counterexample :
    (simulateStore optRefs cCrit zeroStream store5).isSome = true ∧
    (simulateStore optRefs cCrit zeroStream store5).map
      (fun out => readDict out.2 0) = some (fun _ => (5 : ℝ)) := by
  rcases simLoopStore_single cCrit zeroStream 300 store5 0 0 with ⟨st', pos', hloop⟩
  have hrun : simulateStore optRefs cCrit zeroStream store5 =
      some (sortDesc SimResult.confidence
        (([("a", 0 + 300)] : List (String × ℕ)).map fun nc =>
          SimResult.mk nc.1 (round1 ((nc.2 : ℚ) / 3))), st') := by
    unfold simulateStore
    rw [show initCountsRef optRefs = [("a", 0)] from rfl]
    rw [show optRefs = [OptRef.mk "a" 0] from rfl, hloop]
    rfl
  have hframe : readDict st' 0 = readDict store5 0 := by
    have h0 : (0 : ℕ) < store5.length := by
      unfold store5
      simp
    have := simLoopStore_frame [OptRef.mk "a" 0] cCrit zeroStream 300 store5 0
      [("a", 0)] ([("a", 0 + 300)], st', pos') h0 hloop
    exact this
  constructor
  · rw [hrun]
    rfl
  · rw [hrun]
    simp only [Option.map_some']
    rw [hframe]
    rfl

/-- Closed witness fact consumed from the frame theorem at the concrete
store input. -/
theorem claim_C3_simulate_never_mutates_caller_witness :
    (simulateStore optRefs cCrit zeroStream store5).map
      (fun out => readDict out.2 0) =
    (simulateStore optRefs cCrit zeroStream store5).map
      (fun _ => readDict store5 0) := by
  rcases simLoopStore_single cCrit zeroStream 300 store5 0 0 with ⟨st', pos', hloop⟩
  have hrun : simulateStore optRefs cCrit zeroStream store5 =
      some (sortDesc SimResult.confidence
        (([("a", 0 + 300)] : List (String × ℕ)).map fun nc =>
          SimResult.mk nc.1 (round1 ((nc.2 : ℚ) / 3))), st') := by
    unfold simulateStore
    rw [show initCountsRef optRefs = [("a", 0)] from rfl]
    rw [show optRefs = [OptRef.mk "a" 0] from rfl, hloop]
    rfl
  rw [hrun]
  simp only [Option.map_some']
  rw [claim_C3_simulate_never_mutates_caller optRefs cCrit zeroStream store5 0
    (by unfold store5; simp) _ hrun]

/-! ## Claim C7: helper lemmas for the confidence distribution -/

lemma bump_sum {n : String} :
    ∀ {counts counts' : List (String × ℕ)}, bump counts n = some counts' →
      (counts'.map Prod.snd).sum = (counts.map Prod.snd).sum + 1 ∧
      counts'.length = counts.length := by
  intro counts
  induction counts with
  | nil => intro counts' h; cases h
  | cons kv rest ih =>
    intro counts' h
    rw [bump] at h
    rcases kv with ⟨k, v⟩
    by_cases hk : k = n
    · rw [if_pos hk] at h
      cases Option.some_inj.mp h
      simp only [List.map_cons, List.sum_cons, List.length_cons]
      exact ⟨by omega, trivial⟩
    · rw [if_neg hk] at h
      cases hrec : bump rest n with
      | none => rw [hrec] at h; cases h
      | some r =>
        rw [hrec] at h
        cases Option.some_inj.mp h
        rcases ih hrec with ⟨hsum, hlen⟩
        simp only [List.map_cons, List.sum_cons, List.length_cons, hsum, hlen]
        exact ⟨by omega, trivial⟩

lemma simLoop_counts {options : List Opt} {criteria : List Criterion} {g : ℕ → ℝ} :
    ∀ (m pos : ℕ) (counts : List (String × ℕ)) (out : List (String × ℕ) × ℕ),
      simLoop options criteria g m pos counts = some out →
      ((out.1.map Prod.snd).sum = (counts.map Prod.snd).sum + m ∧
       out.1.length = counts.length)
  | 0, pos, counts, out, h => by
    cases Option.some_inj.mp h
    exact ⟨by simp, rfl⟩
  | m + 1, pos, counts, out, h => by
    unfold simLoop at h
    simp only [Option.pure_def, Option.bind_eq_bind, Option.bind_eq_some] at h
    rcases h with ⟨res, _, top, _, counts', hbump, hrec⟩
    rcases bump_sum hbump with ⟨hs, hl⟩
    rcases simLoop_counts m _ counts' out hrec with ⟨hs', hl'⟩
    rw [hs', hl', hs, hl]
    exact ⟨by omega, rfl⟩

lemma initCounts_core (options : List Opt) (acc : List (String × ℕ))
    (hacc : ∀ nc ∈ acc, nc.2 = 0) :
    ∀ nc ∈ options.foldl
      (fun acc o => if (acc.lookup o.name).isSome then acc else acc ++ [(o.name, 0)])
      acc, nc.2 = 0 := by
  induction options generalizing acc with
  | nil => exact hacc
  | cons o os ih =>
    rw [List.foldl_cons]
    apply ih
    split
    · exact hacc
    · intro nc hnc
      rcases List.mem_append.mp hnc with h | h
      · exact hacc nc h
      · rcases List.mem_singleton.mp h with rfl
        rfl

lemma initCounts_sum (options : List Opt) :
    ((initCounts options).map Prod.snd).sum = 0 := by
  apply List.sum_eq_zero
  intro x hx
  rcases List.mem_map.mp hx with ⟨nc, hnc, rfl⟩
  exact initCounts_core options [] (by simp) nc hnc

lemma sum_map_div3 (counts : List (String × ℕ)) :
    (counts.map fun nc => (nc.2 : ℚ) / 3).sum =
      ((counts.map Prod.snd).sum : ℚ) / 3 := by
  induction counts with
  | nil => simp
  | cons x xs ih =>
    simp only [List.map_cons, List.sum_cons, ih]
    push_cast
    ring

lemma round1_div3_err (c : ℕ) :
    |round1 ((c : ℚ) / 3) - (c : ℚ) / 3| ≤ 1/30 := by
  obtain ⟨q, r, hr, hc⟩ : ∃ q r, r < 3 ∧ c = 3 * q + r :=
    ⟨c / 3, c % 3, by omega, by omega⟩
  subst hc
  unfold round1 pyRoundQ
  interval_cases r
  · have hval : 10 * (((3 * q + 0 : ℕ) : ℚ) / 3) = ((10 * (q : ℤ) : ℤ) : ℚ) := by
      push_cast; ring
    have hfloor : ⌊10 * (((3 * q + 0 : ℕ) : ℚ) / 3)⌋ = 10 * (q : ℤ) := by
      rw [hval]; exact Int.floor_intCast _
    rw [hfloor]
    rw [if_pos (by rw [hval]; push_cast; norm_num)]
    rw [abs_sub_le_iff]
    constructor <;> (push_cast; linarith)
  · have hval : 10 * (((3 * q + 1 : ℕ) : ℚ) / 3) = 10 * (q : ℚ) + 3 + 1/3 := by
      push_cast; ring
    have hfloor : ⌊10 * (((3 * q + 1 : ℕ) : ℚ) / 3)⌋ = 10 * (q : ℤ) + 3 := by
      rw [hval, Int.floor_eq_iff]
      constructor
      · push_cast; linarith
      · push_cast; linarith
    rw [hfloor]
    rw [if_pos (by rw [hval]; push_cast; linarith)]
    rw [abs_sub_le_iff]
    constructor <;> (push_cast; linarith)
  · have hval : 10 * (((3 * q + 2 : ℕ) : ℚ) / 3) = 10 * (q : ℚ) + 6 + 2/3 := by
      push_cast; ring
    have hfloor : ⌊10 * (((3 * q + 2 : ℕ) : ℚ) / 3)⌋ = 10 * (q : ℤ) + 6 := by
      rw [hval, Int.floor_eq_iff]
      constructor
      · push_cast; linarith
      · push_cast; linarith
    rw [hfloor]
    rw [if_neg (by rw [hval]; push_cast; linarith)]
    rw [if_pos (by rw [hval]; push_cast; linarith)]
    rw [abs_sub_le_iff]
    constructor <;> (push_cast; linarith)

lemma sum_round1_err :
    ∀ (counts : List (String × ℕ)),
      |(counts.map fun nc => round1 ((nc.2 : ℚ) / 3)).sum -
        (counts.map fun nc => (nc.2 : ℚ) / 3).sum| ≤ (counts.length : ℚ) / 30
  | [] => by simp
  | nc :: rest => by
    simp only [List.map_cons, List.sum_cons, List.length_cons]
    have htri : |round1 ((nc.2 : ℚ) / 3) + (rest.map fun nc => round1 ((nc.2 : ℚ) / 3)).sum -
        ((nc.2 : ℚ) / 3 + (rest.map fun nc => (nc.2 : ℚ) / 3).sum)| ≤
        |round1 ((nc.2 : ℚ) / 3) - (nc.2 : ℚ) / 3| +
        |(rest.map fun nc => round1 ((nc.2 : ℚ) / 3)).sum -
          (rest.map fun nc => (nc.2 : ℚ) / 3).sum| := by
      rw [show round1 ((nc.2 : ℚ) / 3) + (rest.map fun nc => round1 ((nc.2 : ℚ) / 3)).sum -
          ((nc.2 : ℚ) / 3 + (rest.map fun nc => (nc.2 : ℚ) / 3).sum) =
          (round1 ((nc.2 : ℚ) / 3) - (nc.2 : ℚ) / 3) +
          ((rest.map fun nc => round1 ((nc.2 : ℚ) / 3)).sum -
            (rest.map fun nc => (nc.2 : ℚ) / 3).sum) from by ring]
      exact abs_add _ _
    refine le_trans htri ?_
    have h1 := round1_div3_err nc.2
    have h2 := sum_round1_err rest
    push_cast
    linarith

/-! ## Helper lemmas: confidence distribution (C7) -/

lemma den_pos (options : List Opt) (c : Criterion) : 0 < den options c := by
  unfold den
  show 0 < if (List.map (fun o => o.values c.id ^ 2) options).sum > 0 then
    Real.sqrt ((List.map (fun o => o.values c.id ^ 2) options).sum) else 1
  by_cases h : (List.map (fun o => o.values c.id ^ 2) options).sum > 0
  · rw [if_pos h]
    exact Real.sqrt_pos.mpr h
  · rw [if_neg h]
    norm_num

lemma simLoop_succ (options : List Opt) (criteria : List Criterion) (g : ℕ → ℝ)
    (m pos : ℕ) (counts : List (String × ℕ))
    (res : List ScoreEntry × List (ℕ × ℝ) × List (ℕ × ℝ)) (top : ScoreEntry)
    (counts' : List (String × ℕ))
    (hrt : run_topsis (buildSim g criteria options pos).1 criteria = some res)
    (htop : res.1.head? = some top)
    (hbump : bump counts top.name = some counts') :
    simLoop options criteria g (m + 1) pos counts =
      simLoop options criteria g m (buildSim g criteria options pos).2 counts' := by
  conv_lhs => rw [simLoop]
  rw [hrt]
  simp only [Option.pure_def, Option.bind_eq_bind, Option.some_bind]
  rw [htop]
  simp only [Option.some_bind]
  rw [hbump]
  simp only [Option.some_bind]

lemma simLoop_fail (options : List Opt) (criteria : List Criterion) (g : ℕ → ℝ)
    (m pos : ℕ) (counts : List (String × ℕ))
    (res : List ScoreEntry × List (ℕ × ℝ) × List (ℕ × ℝ)) (top : ScoreEntry)
    (hrt : run_topsis (buildSim g criteria options pos).1 criteria = some res)
    (htop : res.1.head? = some top)
    (hbump : bump counts top.name = none) :
    simLoop options criteria g (m + 1) pos counts = none := by
  conv_lhs => rw [simLoop]
  rw [hrt]
  simp only [Option.pure_def, Option.bind_eq_bind, Option.some_bind]
  rw [htop]
  simp only [Option.some_bind]
  rw [hbump]
  rfl

lemma simLoop_single (criteria : List Criterion) (g : ℕ → ℝ) :
    ∀ (m pos k : ℕ), ∃ pos',
      simLoop oneOpt criteria g m pos [("a", k)] = some ([("a", k + m)], pos')
  | 0, pos, k => ⟨pos, by rw [Nat.add_zero]; rfl⟩
  | m + 1, pos, k => by
    have hb1 : (buildSim g criteria oneOpt pos).1 =
        [Opt.mk "a" (perturbVals g criteria (fun _ => 5) pos).1] := rfl
    have hne : (buildSim g criteria oneOpt pos).1 ≠ [] := by
      rw [hb1]
      simp
    have hrt := @run_topsis_eq_some _ criteria hne
    have htop : (sortDesc ScoreEntry.score
        ((buildSim g criteria oneOpt pos).1.map fun o =>
          ScoreEntry.mk o.name
            (scoreVal (buildSim g criteria oneOpt pos).1 criteria o))).head? =
        some (ScoreEntry.mk "a"
          (scoreVal (buildSim g criteria oneOpt pos).1 criteria
            (Opt.mk "a" (perturbVals g criteria (fun _ => 5) pos).1))) := by
      rw [hb1]
      rfl
    obtain ⟨pos', hrec⟩ :=
      simLoop_single criteria g m (buildSim g criteria oneOpt pos).2 (k + 1)
    refine ⟨pos', ?_⟩
    rw [simLoop_succ oneOpt criteria g m pos [("a", k)] _ _ [("a", k + 1)] hrt htop rfl]
    rw [hrec, show k + 1 + m = k + (m + 1) from by omega]

lemma round1_nat_300 : round1 (((300 : ℕ) : ℚ) / 3) = 100 := by
  have h : (((300 : ℕ) : ℚ)) / 3 = ((100 : ℤ) : ℚ) := by
    push_cast
    norm_num
  rw [h]
  unfold round1 pyRoundQ
  rw [show (10 : ℚ) * ((100 : ℤ) : ℚ) = ((1000 : ℤ) : ℚ) from by push_cast; ring,
    Int.floor_intCast]
  rw [if_pos (by push_cast; norm_num)]
  push_cast
  norm_num

lemma simulate_one : simulate oneOpt cCrit zeroStream = some [SimResult.mk "a" 100] := by
  obtain ⟨pos', hl⟩ := simLoop_single cCrit zeroStream 300 0 0
  unfold simulate
  rw [show initCounts oneOpt = [("a", 0)] from rfl, hl]
  simp only [Option.pure_def, Option.bind_eq_bind, Option.some_bind]
  simp only [List.map_cons, List.map_nil]
  rw [sortDesc_singleton]
  rw [show (0 + 300 : ℕ) = 300 from rfl, round1_nat_300]

/-- C7 (amended): when `simulate` returns a result (on some inputs it
instead dies on an uncaught exception), each option's confidence is its
win count over the 300 iterations divided by 3 — that is,
`(wins / iterations) * 100` — rounded to one decimal place by banker's
rounding, the list is sorted descending by confidence, the win counts
total exactly 300, and the confidences sum to 100 within `m / 30`
where `m` is the number of distinct option names.  The claimed `±0.5`
tolerance therefore holds whenever `m ≤ 15`, but not in general. -/
theorem claim_C7_confidence_distribution (options : List Opt)
    (criteria : List Criterion) (g : ℕ → ℝ) (res : List SimResult)
    (h : simulate options criteria g = some res) :
    res.Pairwise (fun a b => b.confidence ≤ a.confidence) ∧
    (∃ counts pos,
      simLoop options criteria g 300 0 (initCounts options) = some (counts, pos) ∧
      res = sortDesc SimResult.confidence
        (counts.map fun nc => SimResult.mk nc.1 (round1 ((nc.2 : ℚ) / 3))) ∧
      (counts.map Prod.snd).sum = 300 ∧
      counts.length = (initCounts options).length) ∧
    |(res.map SimResult.confidence).sum - 100| ≤
      ((initCounts options).length : ℚ) / 30 ∧
    ((initCounts options).length ≤ 15 →
      |(res.map SimResult.confidence).sum - 100| ≤ 1 / 2) := by
  unfold simulate at h
  simp only [Option.pure_def, Option.bind_eq_bind, Option.bind_eq_some,
    Option.some.injEq] at h
  rcases h with ⟨r, hloop, hres⟩
  rcases r with ⟨counts, pos⟩
  obtain ⟨hsum, hlen⟩ := simLoop_counts 300 0 (initCounts options) (counts, pos) hloop
  rw [initCounts_sum] at hsum
  rw [Nat.zero_add] at hsum
  subst hres
  have hmapmap : (sortDesc SimResult.confidence
      ((counts, pos).1.map fun nc => SimResult.mk nc.1
        (round1 ((nc.2 : ℚ) / 3)))).map SimResult.confidence =
      (sortDesc SimResult.confidence
        (counts.map fun nc => SimResult.mk nc.1
          (round1 ((nc.2 : ℚ) / 3)))).map SimResult.confidence := rfl
  have hpermsum : ((sortDesc SimResult.confidence
      (counts.map fun nc => SimResult.mk nc.1
        (round1 ((nc.2 : ℚ) / 3)))).map SimResult.confidence).sum =
      ((counts.map fun nc => SimResult.mk nc.1
        (round1 ((nc.2 : ℚ) / 3))).map SimResult.confidence).sum :=
    ((sortDesc_perm SimResult.confidence _).map SimResult.confidence).sum_eq
  have hcomp : ((counts.map fun nc => SimResult.mk nc.1
      (round1 ((nc.2 : ℚ) / 3))).map SimResult.confidence) =
      counts.map fun nc => round1 ((nc.2 : ℚ) / 3) := by
    rw [List.map_map]
    rfl
  have hdiv : (counts.map fun nc => (nc.2 : ℚ) / 3).sum = 100 := by
    rw [sum_map_div3, hsum]
    norm_num
  have herr := sum_round1_err counts
  rw [hdiv] at herr
  have hbound : |((sortDesc SimResult.confidence
      ((counts, pos).1.map fun nc => SimResult.mk nc.1
        (round1 ((nc.2 : ℚ) / 3)))).map SimResult.confidence).sum - 100| ≤
      ((initCounts options).length : ℚ) / 30 := by
    rw [hmapmap, hpermsum, hcomp, ← hlen]
    exact herr
  refine ⟨sortDesc_sorted SimResult.confidence _, ⟨counts, pos, hloop, rfl, hsum, hlen⟩,
    hbound, fun hle => le_trans hbound ?_⟩
  have : ((initCounts options).length : ℚ) ≤ 15 := by exact_mod_cast hle
  linarith

/-- Closed witness for the amended confidence theorem: at the
one-option input the simulation completes with the single confidence
exactly 100. -/
theorem claim_C7_confidence_distribution_witness :
    simulate oneOpt cCrit zeroStream = some [SimResult.mk "a" 100] ∧
    ([SimResult.mk "a" (100 : ℚ)].Pairwise fun a b => b.confidence ≤ a.confidence) ∧
    |([SimResult.mk "a" (100 : ℚ)].map SimResult.confidence).sum - 100| ≤
      ((initCounts oneOpt).length : ℚ) / 30 := by
  have h := claim_C7_confidence_distribution oneOpt cCrit zeroStream
    [SimResult.mk "a" 100] simulate_one
  exact ⟨simulate_one, h.1, h.2.2.1⟩

lemma opt_ext {a b : Opt} (hn : a.name = b.name) (hv : a.values = b.values) :
    a = b := by
  cases a
  cases b
  cases hn
  cases hv
  rfl

lemma winner18_lt (t : ℕ) : winner18 t < 18 := by
  unfold winner18
  split <;> omega

lemma cCrit_ids_nodup : (cCrit.map Criterion.id).Nodup := by
  simp [cCrit]

lemma opts18_length : opts18.length = 18 := by
  simp [opts18]

lemma opts18_getD (i : ℕ) (hi : i < 18) :
    opts18.getD i defaultOpt = Opt.mk (nm18 i) fun _ => (5 : ℝ) := by
  unfold opts18
  rw [List.getD_eq_getElem _ _ (by simpa using hi)]
  simp

lemma pOpts_length (w : ℕ) : (pOpts w).length = 18 := by
  simp [pOpts]

lemma pOpts_getD (w i : ℕ) (hi : i < 18) :
    (pOpts w).getD i defaultOpt =
      Opt.mk (nm18 i) fun k => if k = 0 then (if i = w then (6 : ℝ) else 5) else 5 := by
  unfold pOpts
  rw [List.getD_eq_getElem _ _ (by simpa using hi)]
  simp

lemma g18_eval (t i : ℕ) (hi : i < 18) :
    g18 (18 * t + i) = if i = winner18 t then 1 else 0 := by
  unfold g18
  have hmod : (18 * t + i) % 18 = i := by omega
  have hdiv : (18 * t + i) / 18 = t := by omega
  rw [hmod, hdiv]

lemma buildSim18 (t : ℕ) :
    buildSim g18 cCrit opts18 (18 * t) = (pOpts (winner18 t), 18 * t + 18) := by
  have hlen : (buildSim g18 cCrit opts18 (18 * t)).1.length = 18 := by
    rw [buildSim_length]
    exact opts18_length
  have hsnd : (buildSim g18 cCrit opts18 (18 * t)).2 = 18 * t + 18 := by
    rw [buildSim_snd, opts18_length, show dynCount cCrit = 1 from rfl]
  have hfst : (buildSim g18 cCrit opts18 (18 * t)).1 = pOpts (winner18 t) := by
    apply List.ext_getElem
    · rw [hlen, pOpts_length]
    intro i h1 h2
    have hi : i < 18 := by rw [hlen] at h1; exact h1
    rw [← List.getD_eq_getElem _ defaultOpt h1, ← List.getD_eq_getElem _ defaultOpt h2]
    obtain ⟨hname, hdynv, huntouched⟩ := buildSim_get g18 cCrit cCrit_ids_nodup opts18
      (18 * t) i (by rw [opts18_length]; exact hi)
    rw [pOpts_getD _ _ hi]
    apply opt_ext
    · rw [hname, opts18_getD i hi]
    · funext k
      by_cases hk : k = 0
      · subst hk
        have h0 := hdynv 0 (by simp [cCrit]) rfl
        have hidx : 18 * t + i * dynCount cCrit + dynCount (List.take 0 cCrit) =
            18 * t + i := by
          rw [show dynCount cCrit = 1 from rfl,
            show dynCount (List.take 0 cCrit) = 0 from rfl]
          omega
        rw [hidx] at h0
        have h0a : ((buildSim g18 cCrit opts18 (18 * t)).1.getD i defaultOpt).values 0 =
            clamp19 (5 + g18 (18 * t + i)) := by
          rw [opts18_getD i hi] at h0
          exact h0
        rw [h0a, g18_eval t i hi]
        show clamp19 (5 + if i = winner18 t then 1 else 0) =
          if (0 : ℕ) = 0 then (if i = winner18 t then (6 : ℝ) else 5) else 5
        rw [if_pos rfl]
        by_cases hw : i = winner18 t
        · rw [if_pos hw, if_pos hw]
          unfold clamp19
          norm_num
        · rw [if_neg hw, if_neg hw]
          unfold clamp19
          norm_num
      · have hu := huntouched k (by
          intro c hc hdyn
          have hc' : c = Criterion.mk 0 "C" CritType.benefit true 1 false 1 := by
            simpa [cCrit] using hc
          subst hc'
          exact fun h => hk h.symm)
        rw [hu, opts18_getD i hi]
        show (5 : ℝ) = if k = 0 then (if i = winner18 t then (6 : ℝ) else 5) else 5
        rw [if_neg hk]
  rw [← hfst, ← hsnd]

lemma map_over_pOpts {β : Type} (w : ℕ) (F : Opt → β) :
    (pOpts w).map F = (List.range 18).map fun i =>
      F (Opt.mk (nm18 i) fun k => if k = 0 then (if i = w then (6 : ℝ) else 5) else 5) := by
  rw [pOpts, List.map_map]
  rfl

lemma normVal18 (w i : ℕ) :
    normVal (pOpts w) c18
      (Opt.mk (nm18 i) fun k => if k = 0 then (if i = w then (6 : ℝ) else 5) else 5) =
      (if i = w then (6 : ℝ) else 5) / den (pOpts w) c18 := by
  unfold normVal
  show (if (0 : ℕ) = 0 then (if i = w then (6 : ℝ) else 5) else 5) / den (pOpts w) c18 *
      (1 : ℝ) = (if i = w then (6 : ℝ) else 5) / den (pOpts w) c18
  rw [if_pos rfl, mul_one]

lemma normColumn18 (w : ℕ) :
    normColumn (pOpts w) c18 =
      (List.range 18).map fun i =>
        (if i = w then (6 : ℝ) else 5) / den (pOpts w) c18 := by
  show (pOpts w).map (normVal (pOpts w) c18) = _
  rw [map_over_pOpts]
  apply List.map_congr_left
  intro i hi
  exact normVal18 w i

lemma bestVal18 (w : ℕ) (hw : w < 18) :
    colBest (pOpts w) c18 = some (6 / den (pOpts w) c18) := by
  have hD := den_pos (pOpts w) c18
  show (normColumn (pOpts w) c18).max? = some (6 / den (pOpts w) c18)
  rw [normColumn18, max?_eq_some_iff_real]
  constructor
  · exact List.mem_map.mpr ⟨w, List.mem_range.mpr hw, by rw [if_pos rfl]⟩
  · intro b hb
    rcases List.mem_map.mp hb with ⟨i, hi, rfl⟩
    by_cases hiw : i = w
    · rw [if_pos hiw]
    · rw [if_neg hiw]
      exact (div_le_div_iff_of_pos_right hD).mpr (by norm_num)

lemma worstVal18 (w : ℕ) (hw : w < 18) :
    colWorst (pOpts w) c18 = some (5 / den (pOpts w) c18) := by
  have hD := den_pos (pOpts w) c18
  show (normColumn (pOpts w) c18).min? = some (5 / den (pOpts w) c18)
  rw [normColumn18, min?_eq_some_iff_real]
  constructor
  · by_cases hw0 : w = 0
    · exact List.mem_map.mpr ⟨1, List.mem_range.mpr (by norm_num),
        by rw [if_neg (by omega)]⟩
    · exact List.mem_map.mpr ⟨0, List.mem_range.mpr (by norm_num),
        by rw [if_neg (by omega)]⟩
  · intro b hb
    rcases List.mem_map.mp hb with ⟨i, hi, rfl⟩
    by_cases hiw : i = w
    · rw [if_pos hiw]
      exact (div_le_div_iff_of_pos_right hD).mpr (by norm_num)
    · rw [if_neg hiw]

lemma score18 (w i : ℕ) (hw : w < 18) :
    scoreVal (pOpts w) cCrit
      (Opt.mk (nm18 i) fun k => if k = 0 then (if i = w then (6 : ℝ) else 5) else 5) =
      if i = w then (1 : ℝ) else 0 := by
  have hD := den_pos (pOpts w) c18
  have hbw : bestVal (pOpts w) c18 = 6 / den (pOpts w) c18 := by
    unfold bestVal
    rw [bestVal18 w hw]
    rfl
  have hww : worstVal (pOpts w) c18 = 5 / den (pOpts w) c18 := by
    unfold worstVal
    rw [worstVal18 w hw]
    rfl
  have hmemc : ∀ c ∈ cCrit, c = c18 := by
    intro c hc
    simpa [cCrit, c18] using hc
  by_cases hiw : i = w
  · conv_rhs => rw [if_pos hiw]
    apply scoreVal_eq_one
    · intro c hc
      rw [hmemc c hc, normVal18 w i, hbw, if_pos hiw]
    · have hdw : dWorstVal (pOpts w) cCrit
          (Opt.mk (nm18 i) fun k => if k = 0 then (if i = w then (6 : ℝ) else 5) else 5) =
          Real.sqrt ((normVal (pOpts w) c18
            (Opt.mk (nm18 i) fun k => if k = 0 then (if i = w then (6 : ℝ) else 5) else 5) -
            worstVal (pOpts w) c18) ^ 2) := by
        unfold dWorstVal
        rw [show cCrit = [c18] from rfl]
        simp only [List.map_cons, List.map_nil, List.sum_cons, List.sum_nil, add_zero]
      rw [hdw, normVal18 w i, hww, if_pos hiw]
      rw [show (6 : ℝ) / den (pOpts w) c18 - 5 / den (pOpts w) c18 =
        1 / den (pOpts w) c18 from by ring]
      exact ne_of_gt (Real.sqrt_pos.mpr
        (pow_two_pos_of_ne_zero (ne_of_gt (div_pos one_pos hD))))
  · conv_rhs => rw [if_neg hiw]
    apply scoreVal_eq_zero
    · intro c hc
      rw [hmemc c hc, normVal18 w i, hww, if_neg hiw]
    · have hdb : dBestVal (pOpts w) cCrit
          (Opt.mk (nm18 i) fun k => if k = 0 then (if i = w then (6 : ℝ) else 5) else 5) =
          Real.sqrt ((normVal (pOpts w) c18
            (Opt.mk (nm18 i) fun k => if k = 0 then (if i = w then (6 : ℝ) else 5) else 5) -
            bestVal (pOpts w) c18) ^ 2) := by
        unfold dBestVal
        rw [show cCrit = [c18] from rfl]
        simp only [List.map_cons, List.map_nil, List.sum_cons, List.sum_nil, add_zero]
      rw [hdb, normVal18 w i, hbw, if_neg hiw]
      rw [show (5 : ℝ) / den (pOpts w) c18 - 6 / den (pOpts w) c18 =
        -(1 / den (pOpts w) c18) from by ring]
      exact ne_of_gt (Real.sqrt_pos.mpr
        (pow_two_pos_of_ne_zero (neg_ne_zero.mpr (ne_of_gt (div_pos one_pos hD)))))

lemma topsis18_head (w : ℕ) (hw : w < 18) :
    (run_topsis (pOpts w) cCrit).map (fun res => res.1.head?) =
      some (some (ScoreEntry.mk (nm18 w) 1)) := by
  have hne : pOpts w ≠ [] := by
    unfold pOpts
    simp
  have hrt := @run_topsis_eq_some (pOpts w) cCrit hne
  have hLeq : ((pOpts w).map fun o => ScoreEntry.mk o.name (scoreVal (pOpts w) cCrit o)) =
      (List.range 18).map fun i =>
        ScoreEntry.mk (nm18 i) (if i = w then (1 : ℝ) else 0) := by
    rw [map_over_pOpts]
    apply List.map_congr_left
    intro i hi
    show ScoreEntry.mk (nm18 i) (scoreVal (pOpts w) cCrit
      (Opt.mk (nm18 i) fun k => if k = 0 then (if i = w then (6 : ℝ) else 5) else 5)) =
      ScoreEntry.mk (nm18 i) (if i = w then (1 : ℝ) else 0)
    rw [score18 w i hw]
  rw [hLeq] at hrt
  have hhead : (sortDesc ScoreEntry.score ((List.range 18).map fun i =>
      ScoreEntry.mk (nm18 i) (if i = w then (1 : ℝ) else 0))).head? =
      some (ScoreEntry.mk (nm18 w) 1) := by
    cases hs : sortDesc ScoreEntry.score ((List.range 18).map fun i =>
        ScoreEntry.mk (nm18 i) (if i = w then (1 : ℝ) else 0)) with
    | nil =>
      have hp := sortDesc_perm ScoreEntry.score ((List.range 18).map fun i =>
        ScoreEntry.mk (nm18 i) (if i = w then (1 : ℝ) else 0))
      rw [hs] at hp
      have hl := hp.length_eq
      simp at hl
    | cons m rest =>
      obtain ⟨hmem, hmax⟩ := sortDesc_head_max ScoreEntry.score hs
      rcases List.mem_map.mp hmem with ⟨i0, hi0, hm⟩
      have hwin : ScoreEntry.mk (nm18 w) (1 : ℝ) ∈ (List.range 18).map fun i =>
          ScoreEntry.mk (nm18 i) (if i = w then (1 : ℝ) else 0) :=
        List.mem_map.mpr ⟨w, List.mem_range.mpr hw, by rw [if_pos rfl]⟩
      have hge := hmax _ hwin
      by_cases hi0w : i0 = w
      · subst hi0w
        rw [show (m :: rest).head? = some m from rfl, ← hm, if_pos rfl]
      · exfalso
        rw [← hm] at hge
        have hge1 : (1 : ℝ) ≤ if i0 = w then (1 : ℝ) else 0 := hge
        rw [if_neg hi0w] at hge1
        linarith
  rw [hrt]
  simp only [Option.map_some']
  exact congrArg some hhead

lemma simLoop18 :
    ∀ (m t : ℕ) (counts : List (String × ℕ)),
      simLoop opts18 cCrit g18 m (18 * t) counts =
        (bumpLoop winner18 m t counts).map fun c => (c, 18 * (t + m))
  | 0, t, counts => by
    show some (counts, 18 * t) = (some counts).map fun c => (c, 18 * (t + 0))
    rw [Option.map_some']
    norm_num
  | m + 1, t, counts => by
    have hmap := topsis18_head (winner18 t) (winner18_lt t)
    cases hr : run_topsis (pOpts (winner18 t)) cCrit with
    | none =>
      rw [hr] at hmap
      simp at hmap
    | some res =>
      rw [hr] at hmap
      simp only [Option.map_some'] at hmap
      have hhead : res.1.head? = some (ScoreEntry.mk (nm18 (winner18 t)) 1) :=
        Option.some_inj.mp hmap
      have hrt : run_topsis (buildSim g18 cCrit opts18 (18 * t)).1 cCrit = some res := by
        rw [buildSim18]
        exact hr
      have hsnd : (buildSim g18 cCrit opts18 (18 * t)).2 = 18 * (t + 1) := by
        rw [buildSim18]
        show 18 * t + 18 = 18 * (t + 1)
        omega
      cases hb : bump counts (nm18 (winner18 t)) with
      | none =>
        rw [simLoop_fail opts18 cCrit g18 m (18 * t) counts res
          (ScoreEntry.mk (nm18 (winner18 t)) 1) hrt hhead hb]
        rw [bumpLoop, hb]
        rfl
      | some counts' =>
        rw [simLoop_succ opts18 cCrit g18 m (18 * t) counts res
          (ScoreEntry.mk (nm18 (winner18 t)) 1) counts' hrt hhead hb]
        rw [hsnd, simLoop18 m (t + 1) counts']
        rw [bumpLoop, hb]
        rw [show t + 1 + m = t + (m + 1) from by omega]

set_option maxHeartbeats 1000000 in
lemma bumpLoop18_eval :
    bumpLoop winner18 300 0 (initCounts opts18) = some counts18 := by decide

lemma round1_266 : round1 (((266 : ℕ) : ℚ) / 3) = 887 / 10 := by
  have hf : ⌊(10 : ℚ) * (((266 : ℕ) : ℚ) / 3)⌋ = 886 := by
    rw [Int.floor_eq_iff]
    constructor
    · push_cast
      linarith
    · push_cast
      linarith
  unfold round1 pyRoundQ
  rw [hf]
  rw [if_neg (by push_cast; linarith), if_pos (by push_cast; linarith)]
  push_cast
  norm_num

lemma round1_2 : round1 (((2 : ℕ) : ℚ) / 3) = 7 / 10 := by
  have hf : ⌊(10 : ℚ) * (((2 : ℕ) : ℚ) / 3)⌋ = 6 := by
    rw [Int.floor_eq_iff]
    constructor
    · push_cast
      linarith
    · push_cast
      linarith
  unfold round1 pyRoundQ
  rw [hf]
  rw [if_neg (by push_cast; linarith), if_pos (by push_cast; linarith)]
  push_cast
  norm_num

lemma simulate18 :
    simulate opts18 cCrit g18 = some (sortDesc SimResult.confidence
      (counts18.map fun nc => SimResult.mk nc.1 (round1 ((nc.2 : ℚ) / 3)))) := by
  have hl : simLoop opts18 cCrit g18 300 0 (initCounts opts18) =
      some (counts18, 18 * (0 + 300)) := by
    have h := simLoop18 300 0 (initCounts opts18)
    rw [show (18 * 0 : ℕ) = 0 from rfl] at h
    rw [h, bumpLoop18_eval]
    rfl
  unfold simulate
  rw [hl]
  rfl

/-- C7 (counterexample): with eighteen options on one dynamic benefit
criterion and a sample stream under which options 1-17 win two of the
300 iterations each and option 0 wins the remaining 266, every win
count is `2 mod 3`, each rounded confidence carries a `+1/30` error,
and the returned confidences sum to `100.6` — outside the claimed
`±0.5` tolerance around 100. -/
theorem claim_C7_counterexample :
    (simulate opts18 cCrit g18).map
        (fun res => (res.map SimResult.confidence).sum) = some ((503 : ℚ) / 5) ∧
    ¬ (|((503 : ℚ) / 5) - 100| ≤ 1 / 2) := by
  constructor
  · rw [simulate18]
    simp only [Option.map_some']
    congr 1
    rw [((sortDesc_perm SimResult.confidence
      (counts18.map fun nc => SimResult.mk nc.1
        (round1 ((nc.2 : ℚ) / 3)))).map SimResult.confidence).sum_eq]
    rw [List.map_map]
    show (counts18.map fun nc => round1 ((nc.2 : ℚ) / 3)).sum = 503 / 5
    simp only [counts18, List.map_cons, List.map_nil, List.sum_cons, List.sum_nil,
      round1_266, round1_2]
    norm_num
  · rw [show (503 : ℚ) / 5 - 100 = 3 / 5 from by norm_num]
    rw [abs_of_pos (by norm_num)]
    norm_num

end DecCompanion
